import Mathlib

/-!
# Chat server (`server/index.js`): session registry, rooms and message log

Shallow embedding of the socket.io chat server.  The module-level `Map`s become
association lists that keep insertion order, the handlers become functions from
a server state to a new state and the list of socket.io calls they make, and the
helper functions at the bottom of the file become functions on the message
store.
-/

namespace ChatServer

/-! ## JavaScript values used by the server -/

/-- A `Map` (or a plain object used as a dictionary): entries in insertion order. -/
abbrev JsMap (κ ν : Type) := List (κ × ν)

namespace JsMap

variable {κ ν : Type} [DecidableEq κ]

/-- The call `map.get(k)`; `none` stands for `undefined`. -/
def get? : JsMap κ ν → κ → Option ν
  | [], _ => none
  | (k', v) :: rest, k => if k' = k then some v else get? rest k

/-- The call `map.has(k)`. -/
def has (m : JsMap κ ν) (k : κ) : Bool := (get? m k).isSome

/-- The call `map.set(k, v)`: an existing key keeps its position, a new key goes last. -/
def set : JsMap κ ν → κ → ν → JsMap κ ν
  | [], k, v => [(k, v)]
  | (k', v') :: rest, k, v =>
    if k' = k then (k', v) :: rest else (k', v') :: set rest k v

/-- The call `map.delete(k)`. -/
def delete : JsMap κ ν → κ → JsMap κ ν
  | [], _ => []
  | (k', v') :: rest, k => if k' = k then rest else (k', v') :: delete rest k

/-- The expression `Array.from(map.keys())`. -/
def keys (m : JsMap κ ν) : List κ := m.map Prod.fst

end JsMap

/-- A `Set` of strings in insertion order; `set.add(x)`. -/
def setAdd (s : List String) (x : String) : List String :=
  if x ∈ s then s else s ++ [x]

/-- A `Set` of strings in insertion order; `set.delete(x)`. -/
def setDelete (s : List String) (x : String) : List String :=
  s.erase x

/-- Truthiness of a string that may be `undefined`: absent and `""` are falsy. -/
def truthy : Option String → Bool
  | none => false
  | some s => s ≠ ""

/-- The expression `a || b` on strings that may be `undefined`, with a string default. -/
def orElse (a : Option String) (b : String) : String :=
  match a with
  | some s => if s ≠ "" then s else b
  | none => b

/-- Relative index of `Array.prototype.slice`: a negative index counts from the
end, and the result is clamped to `[0, len]`. -/
def relIndex (len : Nat) (i : Int) : Nat :=
  if i < 0 then ((len : Int) + i).toNat else min i.toNat len

/-- The call `arr.slice(start, end)`; `none` for `end` is the one-argument form. -/
def jsSlice {α : Type} (arr : List α) (start : Int) (stop : Option Int) : List α :=
  let len := arr.length
  let k := relIndex len start
  let final := match stop with
    | none => len
    | some e => relIndex len e
  (arr.drop k).take (final - k)

/-- UTF-16 code units of one character. -/
def charUnits (c : Char) : List Nat :=
  if c.toNat < 0x10000 then [c.toNat]
  else [0xD800 + (c.toNat - 0x10000) / 0x400, 0xDC00 + (c.toNat - 0x10000) % 0x400]

/-- UTF-16 code units of a string, the representation JavaScript compares. -/
def utf16 (s : String) : List Nat :=
  s.toList.flatMap charUnits

/-- Lexicographic comparison of code-unit sequences (a proper prefix is smaller). -/
def unitsLt : List Nat → List Nat → Bool
  | _, [] => false
  | [], _ :: _ => true
  | x :: xs, y :: ys => if x < y then true else if y < x then false else unitsLt xs ys

/-- The comparison `a < b` on strings. -/
def jsStrLt (a b : String) : Bool := unitsLt (utf16 a) (utf16 b)

/-- Insertion of `x` in front of a sorted list: `x` passes the elements that
are smaller under the default comparator and stays before equal ones. -/
def sortInsert (x : String) : List String → List String
  | [] => [x]
  | y :: ys => if jsStrLt y x then y :: sortInsert x ys else x :: y :: ys

/-- The call `arr.sort()` on strings with the default comparator (stable). -/
def jsSort (arr : List String) : List String :=
  arr.foldr sortInsert []

/-- The call `arr.join(sep)`. -/
def jsJoin (arr : List String) (sep : String) : String :=
  sep.intercalate arr

/-! ## Messages and the message store -/

/-- File reference carried by a message, `{ url, name }`. -/
structure FileRef where
  url : String
  name : String
deriving DecidableEq, Repr

/-- A stored message.  `sender` is the field `from` of the source. -/
structure Message where
  id : Nat
  sender : String
  text : Option String
  ts : Nat
  file : Option FileRef
  readBy : List String
  reactions : JsMap String (List String)
deriving DecidableEq, Repr

/-- The module-level `messageStore`: room name to log, oldest message first. -/
abbrev MessageStore := JsMap String (List Message)

/-- Source lines 196-201. -/
def saveMessage (store : MessageStore) (room : String) (msg : Message) : MessageStore :=
  let store1 := if JsMap.has store room then store else JsMap.set store room []
  let store2 := JsMap.set store1 room (((JsMap.get? store1 room).getD []) ++ [msg])
  if ((JsMap.get? store2 room).getD []).length > 1000 then
    JsMap.set store2 room (jsSlice ((JsMap.get? store2 room).getD []) (-1000) none)
  else store2

/-- Source lines 203-207; `count` defaults to 50 at the call sites that omit it. -/
def getRecentMessages (store : MessageStore) (room : String) (count : Nat := 50) :
    List Message :=
  if !JsMap.has store room then []
  else jsSlice ((JsMap.get? store room).getD []) (-(count : Int)) none

/-- Source lines 209-215. -/
def getMessages (store : MessageStore) (room : String) (offset : Int := 0)
    (limit : Int := 20) : List Message :=
  let arr := (JsMap.get? store room).getD []
  let start := max 0 ((arr.length : Int) - offset - limit)
  let stop := max 0 ((arr.length : Int) - offset)
  jsSlice arr start (some stop)

/-- Applies `f` to the first element satisfying `p`: the effect of mutating the
object returned by `arr.find(p)`. -/
def updateFirst {α : Type} (p : α → Bool) (f : α → α) : List α → List α
  | [] => []
  | x :: xs => if p x then f x :: xs else x :: updateFirst p f xs

/-- The statement `if (m && !m.readBy.includes(username)) m.readBy.push(username)`
on the found message `m` (line 220). -/
def addReader (username : String) (m : Message) : Message :=
  if username ∈ m.readBy then m else { m with readBy := m.readBy ++ [username] }

/-- Source lines 217-221. -/
def markMessageRead (store : MessageStore) (room : String) (messageId : Nat)
    (username : String) : MessageStore :=
  match JsMap.get? store room with
  | none => store
  | some arr =>
    JsMap.set store room
      (updateFirst (fun x => x.id == messageId) (addReader username) arr)

/-- Property names that every plain object inherits from `Object.prototype`.
Reading one of them on `{}` gives a function (for `__proto__` the prototype
object itself), which is truthy and has no `includes` method. -/
def objectPrototypeKeys : List String :=
  ["constructor", "__defineGetter__", "__defineSetter__", "hasOwnProperty",
   "__lookupGetter__", "__lookupSetter__", "isPrototypeOf", "propertyIsEnumerable",
   "toString", "valueOf", "__proto__", "toLocaleString"]

/-- Result of the property read `m.reactions[reaction]` on the plain object
`reactions`: an own property holding an array, an inherited member of
`Object.prototype`, or `undefined`. -/
inductive PropRead where
  | array (users : List String)
  | inherited
  | undefined
deriving DecidableEq, Repr

/-- The property read `obj[key]` on a message's `reactions` object. -/
def readProp (obj : JsMap String (List String)) (key : String) : PropRead :=
  match JsMap.get? obj key with
  | some l => .array l
  | none => if key ∈ objectPrototypeKeys then .inherited else .undefined

/-- Exceptions a handler can throw. -/
inductive JsError where
  | typeError (what : String)
deriving DecidableEq, Repr

deriving instance DecidableEq for Except

/-- The two statements of `addReaction` that act on the found message `m`
(source lines 226-227): create the list when the property read is falsy, then
push `username` unless the list includes it. -/
def reactOn (m : Message) (username reaction : String) : Except JsError Message :=
  let m1 : Message :=
    match readProp m.reactions reaction with
    | .undefined => { m with reactions := JsMap.set m.reactions reaction [] }
    | _ => m
  match readProp m1.reactions reaction with
  | .array l =>
    if username ∈ l then .ok m1
    else .ok { m1 with reactions := JsMap.set m1.reactions reaction (l ++ [username]) }
  | _ => .error (.typeError "m.reactions[reaction].includes is not a function")

/-- Source lines 222-228. -/
def addReaction (store : MessageStore) (room : String) (messageId : Nat)
    (username reaction : String) : Except JsError MessageStore :=
  let arr := (JsMap.get? store room).getD []
  match arr.find? (fun x => x.id == messageId) with
  | none => .ok store
  | some m =>
    match reactOn m username reaction with
    | .error e => .error e
    | .ok m' => .ok (JsMap.set store room (updateFirst (fun x => x.id == messageId) (fun _ => m') arr))

/-- Source lines 229-231. -/
def getPrivateRoomName (a b : String) : String :=
  "private_" ++ jsJoin (jsSort [a, b]) "_"

/-! ## Server state and socket.io calls -/

/-- Value stored in `users` for a connection. -/
structure UserRec where
  username : String
  currentRoom : String
deriving DecidableEq, Repr

/-- The module-level mutable state (source lines 37-42).  Connections are
identified by `socket.id`. -/
structure ServerState where
  users : JsMap String UserRec
  usernameToSocket : JsMap String String
  rooms : JsMap String (List String)
  messageStore : MessageStore
  messageIdCounter : Nat
deriving DecidableEq, Repr

/-- State at process start. -/
def ServerState.init : ServerState :=
  { users := [], usernameToSocket := [], rooms := [], messageStore := [], messageIdCounter := 1 }

/-- Addressee of an emit: `io.emit`, `io.to(r1).to(r2)...emit` (socket.io rooms;
every socket is in the room named by its own id), or `socket.emit`. -/
inductive Target where
  | all
  | to (rooms : List String)
  | socket (id : String)
deriving DecidableEq, Repr

/-- Outbound events with their payloads. -/
inductive Outbound where
  | onlineUsers (list : List String)
  | notification (message : String)
  | joined (username : String) (rooms : List String) (lastMessages : List Message)
  | roomJoined (room : String) (lastMessages : List Message)
  | message (room : String) (message : Message)
  | privateMessage (message : Message)
  | typing (username : String) (isTyping : Bool)
  | messageRead (messageId : Nat) (username : String)
  | reaction (messageId : Nat) (username : String) (reaction : String)
  | olderMessages (room : Option String) (messages : List Message)
deriving DecidableEq, Repr

/-- Calls a handler makes on the socket.io API, in program order. -/
inductive Effect where
  | join (socketId room : String)
  | leave (socketId room : String)
  | emit (target : Target) (event : Outbound)
deriving DecidableEq, Repr

/-- Whether a call sends an event to anybody. -/
def Effect.isEmit : Effect → Bool
  | .emit _ _ => true
  | _ => false

/-- The statement `rooms.get(room)?.delete(username)`. -/
def roomDelete (rooms : JsMap String (List String)) (room username : String) :
    JsMap String (List String) :=
  match JsMap.get? rooms room with
  | none => rooms
  | some members => JsMap.set rooms room (setDelete members username)

/-- The statements `if (!rooms.has(room)) rooms.set(room, new Set()); rooms.get(room).add(username)`. -/
def roomAdd (rooms : JsMap String (List String)) (room username : String) :
    JsMap String (List String) :=
  let rooms1 := if JsMap.has rooms room then rooms else JsMap.set rooms room []
  JsMap.set rooms1 room (setAdd ((JsMap.get? rooms1 room).getD []) username)

/-! ## Event handlers (source lines 44-193) -/

/-- Handler of `login` (lines 48-72).  The payload field may be absent. -/
def login (s : ServerState) (socketId : String) (username : Option String) :
    ServerState × List Effect :=
  match username with
  | none => (s, [])
  | some name =>
    if name = "" then (s, [])
    else
      let users := JsMap.set s.users socketId { username := name, currentRoom := "global" }
      let usernameToSocket := JsMap.set s.usernameToSocket name socketId
      let rooms := roomAdd s.rooms "global" name
      ({ s with users := users, usernameToSocket := usernameToSocket, rooms := rooms },
       [ .join socketId "global",
         .emit .all (.onlineUsers (JsMap.keys usernameToSocket)),
         .emit (.to ["global"]) (.notification (name ++ " joined global")),
         .emit (.socket socketId)
           (.joined name (JsMap.keys rooms) (getRecentMessages s.messageStore "global")) ])

/-- Handler of `joinRoom` (lines 75-100). -/
def joinRoom (s : ServerState) (socketId : String) (room : String) :
    ServerState × List Effect :=
  match JsMap.get? s.users socketId with
  | none => (s, [])
  | some u =>
    let username := u.username
    let prev := u.currentRoom
    let rooms1 := if prev ≠ "" then roomDelete s.rooms prev username else s.rooms
    let left : List Effect :=
      if prev ≠ "" then
        [ .leave socketId prev,
          .emit (.to [prev]) (.notification (username ++ " left " ++ prev)) ]
      else []
    let users := JsMap.set s.users socketId { u with currentRoom := room }
    let rooms2 := roomAdd rooms1 room username
    ({ s with users := users, rooms := rooms2 },
     left ++
     [ .join socketId room,
       .emit (.to [room]) (.notification (username ++ " joined " ++ room)),
       .emit (.socket socketId) (.roomJoined room (getRecentMessages s.messageStore room)),
       .emit .all (.onlineUsers (JsMap.keys s.usernameToSocket)) ])

/-- Handler of `leaveRoom` (lines 103-110). -/
def leaveRoom (s : ServerState) (socketId : String) (room : String) :
    ServerState × List Effect :=
  match JsMap.get? s.users socketId with
  | none => (s, [])
  | some u =>
    let username := u.username
    ({ s with rooms := roomDelete s.rooms room username },
     [ .leave socketId room,
       .emit (.to [room]) (.notification (username ++ " left " ++ room)) ])

/-- Handler of `sendMessage` (lines 113-138); `now` is the value of `Date.now()`. -/
def sendMessage (s : ServerState) (socketId : String) (room text toUserId : Option String)
    (isPrivate : Bool) (file : Option FileRef) (now : Nat) : ServerState × List Effect :=
  match JsMap.get? s.users socketId with
  | none => (s, [])
  | some u =>
    let sender := u.username
    let id := s.messageIdCounter
    let s1 := { s with messageIdCounter := s.messageIdCounter + 1 }
    let msg : Message :=
      { id := id, sender := sender, text := if truthy text then text else none, ts := now,
        file := file, readBy := [], reactions := [] }
    if isPrivate && truthy toUserId then
      let recipient := toUserId.getD ""
      let sent : List Effect :=
        match JsMap.get? s1.usernameToSocket recipient with
        | some toSocket =>
          if toSocket ≠ "" then [ .emit (.to [toSocket, socketId]) (.privateMessage msg) ]
          else [ .emit (.socket socketId) (.notification (recipient ++ " is offline")) ]
        | none => [ .emit (.socket socketId) (.notification (recipient ++ " is offline")) ]
      ({ s1 with messageStore := saveMessage s1.messageStore (getPrivateRoomName sender recipient) msg },
       sent)
    else
      let targetRoom := orElse room (orElse (some u.currentRoom) "global")
      ({ s1 with messageStore := saveMessage s1.messageStore targetRoom msg },
       [ .emit (.to [targetRoom]) (.message targetRoom msg) ])

/-- Handler of `typing` (lines 141-151). -/
def typing (s : ServerState) (socketId : String) (room : Option String) (isTyping : Bool)
    (toUserId : Option String) (isPrivate : Bool) : ServerState × List Effect :=
  match JsMap.get? s.users socketId with
  | none => (s, [])
  | some u =>
    if isPrivate && truthy toUserId then
      match JsMap.get? s.usernameToSocket (toUserId.getD "") with
      | some sock =>
        if sock ≠ "" then (s, [ .emit (.to [sock]) (.typing u.username isTyping) ]) else (s, [])
      | none => (s, [])
    else
      (s, [ .emit (.to [orElse room (orElse (some u.currentRoom) "global")])
              (.typing u.username isTyping) ])

/-- Handler of `messageRead` (lines 154-160). -/
def messageRead (s : ServerState) (socketId : String) (room : Option String)
    (messageId : Nat) : ServerState × List Effect :=
  match JsMap.get? s.users socketId with
  | none => (s, [])
  | some u =>
    let target := orElse room (orElse (some u.currentRoom) "global")
    ({ s with messageStore := markMessageRead s.messageStore target messageId u.username },
     [ .emit (.to [target]) (.messageRead messageId u.username) ])

/-- Handler of `react` (lines 163-168); an exception of `addReaction` is not caught. -/
def react (s : ServerState) (socketId : String) (room : Option String) (messageId : Nat)
    (reaction : String) : Except JsError (ServerState × List Effect) :=
  match JsMap.get? s.users socketId with
  | none => .ok (s, [])
  | some u =>
    let target := orElse room (orElse (some u.currentRoom) "global")
    match addReaction s.messageStore target messageId u.username reaction with
    | .error e => .error e
    | .ok store =>
      .ok ({ s with messageStore := store },
           [ .emit (.to [target]) (.reaction messageId u.username reaction) ])

/-- Handler of `loadMore` (lines 171-174); absent `offset` and `limit` take the
defaults 0 and 20 of the destructuring pattern. -/
def loadMore (s : ServerState) (socketId : String) (room : Option String)
    (offset limit : Option Int) : ServerState × List Effect :=
  let current : Option String := (JsMap.get? s.users socketId).map UserRec.currentRoom
  let msgs := getMessages s.messageStore (orElse room (orElse current "global"))
    (offset.getD 0) (limit.getD 20)
  (s, [ .emit (.socket socketId) (.olderMessages room msgs) ])

/-- Handler of `disconnect` (lines 179-192). -/
def disconnect (s : ServerState) (socketId : String) : ServerState × List Effect :=
  match JsMap.get? s.users socketId with
  | none => (s, [])
  | some u =>
    let username := u.username
    let usernameToSocket := JsMap.delete s.usernameToSocket username
    let rooms := s.rooms.map (fun entry => (entry.1, setDelete entry.2 username))
    let users := JsMap.delete s.users socketId
    ({ s with users := users, usernameToSocket := usernameToSocket, rooms := rooms },
     [ .emit .all (.onlineUsers (JsMap.keys usernameToSocket)),
       .emit .all (.notification (username ++ " disconnected")) ])

/-- Names of the inbound events whose handler destructures its first argument
(lines 48, 75, 103, 113, 141, 154, 163 and 171). -/
inductive PayloadEvent where
  | login
  | joinRoom
  | leaveRoom
  | sendMessage
  | typing
  | messageRead
  | react
  | loadMore
deriving DecidableEq, Repr

/-- Inbound events.  The first eight constructors are events that arrive with
a payload object and list its fields (an absent field is `none`); `noPayload`
is one of these events emitted without a payload, or with `null`, so that the
handler receives `undefined` or `null` as its argument. -/
inductive Event where
  | login (username : Option String)
  | joinRoom (room : String)
  | leaveRoom (room : String)
  | sendMessage (room text toUserId : Option String) (isPrivate : Bool)
      (file : Option FileRef) (now : Nat)
  | typing (room : Option String) (isTyping : Bool) (toUserId : Option String)
      (isPrivate : Bool)
  | messageRead (room : Option String) (messageId : Nat)
  | react (room : Option String) (messageId : Nat) (reaction : String)
  | loadMore (room : Option String) (offset limit : Option Int)
  | disconnect
  | noPayload (name : PayloadEvent)
deriving DecidableEq, Repr

/-- Dispatch of one inbound event received on connection `socketId`.  The
parameter pattern of a handler, such as `({ room })`, throws a `TypeError` on
`undefined` and `null` before the first statement of the body runs. -/
def step (s : ServerState) (socketId : String) :
    Event → Except JsError (ServerState × List Effect)
  | .login username => .ok (login s socketId username)
  | .joinRoom room => .ok (joinRoom s socketId room)
  | .leaveRoom room => .ok (leaveRoom s socketId room)
  | .sendMessage room text toUserId isPrivate file now =>
    .ok (sendMessage s socketId room text toUserId isPrivate file now)
  | .typing room isTyping toUserId isPrivate =>
    .ok (typing s socketId room isTyping toUserId isPrivate)
  | .messageRead room messageId => .ok (messageRead s socketId room messageId)
  | .react room messageId reaction => react s socketId room messageId reaction
  | .loadMore room offset limit => .ok (loadMore s socketId room offset limit)
  | .disconnect => .ok (disconnect s socketId)
  | .noPayload _ => .error (.typeError "Cannot destructure property of undefined or null")

/-- Processes inbound events one after the other, each to completion.  No
handler exception is caught in the source, so processing ends at the first one. -/
def run (s : ServerState) : List (String × Event) → ServerState × List Effect
  | [] => (s, [])
  | (socketId, e) :: rest =>
    match step s socketId e with
    | .error _ => (s, [])
    | .ok (s1, out) => ((run s1 rest).1, out ++ (run s1 rest).2)

/-- Id that processing event `e` on connection `socketId` in state `s` gives to
a new message (line 118), if it creates one. -/
def assignedId (s : ServerState) (socketId : String) : Event → Option Nat
  | .sendMessage _ _ _ _ _ _ =>
    (JsMap.get? s.users socketId).map (fun _ => s.messageIdCounter)
  | _ => none

/-- Ids given to new messages while processing a list of events, in order. -/
def assignedIds (s : ServerState) : List (String × Event) → List Nat
  | [] => []
  | (socketId, e) :: rest =>
    match step s socketId e with
    | .error _ => []
    | .ok (s1, _) => (assignedId s socketId e).toList ++ assignedIds s1 rest

/-! ## Client-side guards (`client/src/pages/Login.jsx`, `Chat.jsx`) -/

/-- White space removed by `String.prototype.trim`. -/
def isJsSpace (c : Char) : Bool :=
  c.toNat ∈ [0x09, 0x0A, 0x0B, 0x0C, 0x0D, 0x20, 0xA0, 0x1680, 0x2028, 0x2029, 0x202F,
    0x205F, 0x3000, 0xFEFF] || (0x2000 ≤ c.toNat && c.toNat ≤ 0x200A)

/-- The call `s.trim()`. -/
def jsTrim (s : String) : String :=
  String.mk ((s.toList.dropWhile isJsSpace).reverse.dropWhile isJsSpace).reverse

/-- The `submit` function of `Login.jsx` (lines 7-10): the argument passed to
`onLogin`, or `none` when `onLogin` is not called. -/
def Login.submit (username : String) : Option String :=
  if jsTrim username ≠ "" then some (jsTrim username) else none

/-- Payload of the `sendMessage` event the chat page emits. -/
structure SendPayload where
  room : String
  text : String
  file : Option FileRef
deriving DecidableEq, Repr

/-- The `sendMessage` function of `Chat.jsx` (lines 96-116): the payload it
emits, if any.  `file` is the name of the selected file, and `uploaded` the URL
the upload endpoint answered with (`none` when the upload failed). -/
def Chat.sendMessage (currentRoom text : String) (file : Option String)
    (uploaded : Option String) : Option SendPayload :=
  if text = "" && file.isNone then none
  else
    match file with
    | some name =>
      match uploaded with
      | some url => some { room := currentRoom, text := text, file := some { url := url, name := name } }
      | none => none
    | none => some { room := currentRoom, text := text, file := none }

/-! ## Properties of states, and example data -/

/-- Ids of the messages in the log of `room`, oldest first. -/
def logIds (store : MessageStore) (room : String) : List Nat :=
  ((JsMap.get? store room).getD []).map Message.id

/-- Id discipline of a state: every log has strictly increasing ids, all
stored ids are below the counter, logs of different rooms share no id, and no
room name occurs twice among the store's entries. -/
structure IdsOk (s : ServerState) : Prop where
  increasing : ∀ room, (logIds s.messageStore room).Pairwise (· < ·)
  below : ∀ room, ∀ i ∈ logIds s.messageStore room, i < s.messageIdCounter
  apart : ∀ r1 r2, r1 ≠ r2 → ∀ i ∈ logIds s.messageStore r1, i ∉ logIds s.messageStore r2
  keysNodup : (JsMap.keys s.messageStore).Nodup

/-- Every stored message has a duplicate-free `readBy`. -/
def ReadByOk (store : MessageStore) : Prop :=
  ∀ room, ∀ m ∈ (JsMap.get? store room).getD [], m.readBy.Nodup

/-- The two registry maps are inverse to each other: `usernameToSocket` sends
`u` to `c` exactly when `users` sends `c` to a record with username `u`. -/
def MutualInverses (s : ServerState) : Prop :=
  ∀ u c : String, JsMap.get? s.usernameToSocket u = some c ↔
    ∃ r : UserRec, JsMap.get? s.users c = some r ∧ r.username = u

/-- The message object that line 120 builds for an event with neither text nor
file: `text` and `file` are null, `readBy` and `reactions` are empty. -/
def emptyMessage (id : Nat) (sender : String) (now : Nat) : Message :=
  { id := id, sender := sender, text := none, ts := now, file := none, readBy := [],
    reactions := [] }

/-- A room log of fifty messages numbered 1 to 50, for the worked example. -/
def fiftyLog : List Message :=
  (List.range 50).map (fun i =>
    { id := i + 1, sender := "alice", text := some "hi", ts := 0, file := none,
      readBy := [], reactions := [] })

/-- State after `"alice"` logs in on connection `c1` and then on connection `c2`. -/
def takeOverState : ServerState :=
  (run ServerState.init [("c1", .login (some "alice")), ("c2", .login (some "alice"))]).1

/-- State after `"alice"` logs in on connection `c1`. -/
def aliceOnline : ServerState :=
  (login ServerState.init "c1" (some "alice")).1

/-- Store holding one message with id 1 and no reactions in room `"global"`. -/
def oneMessageStore : MessageStore :=
  [("global", [{ id := 1, sender := "bob", text := some "hi", ts := 0, file := none,
                 readBy := [], reactions := [] }])]

/-- The scenario of the specification: `"alice"` logs in and sends `"hi"`,
`"bob"` logs in, joins `"devs"` and sends `"yo"` there, then `"alice"` sends a
private message to `"bob"`.  The ids assigned are 1, 2 and 3. -/
def scenario : List (String × Event) :=
  [ ("c1", .login (some "alice")),
    ("c1", .sendMessage none (some "hi") none false none 10),
    ("c2", .login (some "bob")),
    ("c2", .joinRoom "devs"),
    ("c2", .sendMessage (some "devs") (some "yo") none false none 20),
    ("c1", .sendMessage none (some "psst") (some "bob") true none 30) ]

/-! ## Association-list lemmas -/

section JsMapLemmas

variable {κ ν : Type} [DecidableEq κ]

theorem JsMap.get?_set_self (m : JsMap κ ν) (k : κ) (v : ν) :
    JsMap.get? (JsMap.set m k v) k = some v := by
  induction m with
  | nil => simp [JsMap.set, JsMap.get?]
  | cons e rest ih =>
    obtain ⟨k', v'⟩ := e
    by_cases h : k' = k
    · simp [JsMap.set, JsMap.get?, h]
    · simp [JsMap.set, JsMap.get?, h, ih]

theorem JsMap.get?_set_other (m : JsMap κ ν) (k k2 : κ) (v : ν) (hne : k ≠ k2) :
    JsMap.get? (JsMap.set m k v) k2 = JsMap.get? m k2 := by
  induction m with
  | nil => simp [JsMap.set, JsMap.get?, hne]
  | cons e rest ih =>
    obtain ⟨k', v'⟩ := e
    by_cases h : k' = k
    · subst h
      simp [JsMap.set, JsMap.get?, hne]
    · by_cases h2 : k' = k2
      · subst h2
        simp [JsMap.set, JsMap.get?, h]
      · simp [JsMap.set, JsMap.get?, h, h2, ih]

theorem JsMap.set_same (m : JsMap κ ν) (k : κ) (v : ν) (hget : JsMap.get? m k = some v) :
    JsMap.set m k v = m := by
  induction m with
  | nil => simp [JsMap.get?] at hget
  | cons e rest ih =>
    obtain ⟨k', v'⟩ := e
    by_cases h : k' = k
    · simp [JsMap.get?, h] at hget
      simp [JsMap.set, h, hget]
    · simp [JsMap.get?, h] at hget
      simp [JsMap.set, h, ih hget]

theorem JsMap.set_set (m : JsMap κ ν) (k : κ) (v w : ν) :
    JsMap.set (JsMap.set m k v) k w = JsMap.set m k w := by
  induction m with
  | nil => simp [JsMap.set]
  | cons e rest ih =>
    obtain ⟨k', v'⟩ := e
    by_cases h : k' = k
    · simp [JsMap.set, h]
    · simp [JsMap.set, h, ih]

end JsMapLemmas

/-! ## Slices -/

theorem jsSlice_neg_none {α : Type} (l : List α) (c : Nat) (hc : 0 < c) :
    jsSlice l (-(c : Int)) none = l.drop (l.length - c) := by
  unfold jsSlice relIndex
  have h1 : (-(c : Int)) < 0 := by omega
  simp only [h1, if_true]
  have h2 : ((l.length : Int) + -(c : Int)).toNat = l.length - c := by omega
  rw [h2]
  apply List.take_of_length_le
  simp

theorem jsSlice_range {α : Type} (l : List α) (a b : Int) (ha : 0 ≤ a) (hb : 0 ≤ b) :
    jsSlice l a (some b) = (l.take b.toNat).drop a.toNat := by
  unfold jsSlice relIndex
  have h1 : ¬ a < 0 := by omega
  have h2 : ¬ b < 0 := by omega
  simp only [h1, h2, if_false]
  apply List.ext_getElem?
  intro i
  simp only [List.getElem?_take, List.getElem?_drop]
  by_cases hi : i < min b.toNat l.length - min a.toNat l.length
  · have h3 : a.toNat + i < b.toNat := by omega
    have h4 : min a.toNat l.length + i = a.toNat + i := by omega
    simp [hi, h3, h4]
  · simp only [hi, if_false]
    by_cases h3 : a.toNat + i < b.toNat
    · simp only [h3, if_true]
      symm
      apply List.getElem?_eq_none
      omega
    · simp [h3]

/-! ## Pagination (`getMessages`) -/

/-- C2: `getMessages(room, offset, limit)` is total and returns the contiguous
slice of the room's log from index `max(0, n-offset-limit)` up to, excluding,
index `max(0, n-offset)`, oldest first; it has at most `limit` entries (none for
a negative `limit`), and is empty when `offset ≥ n` or the room has no log.  For
a log of 50 messages the three pages of the example are `[m31..m50]`,
`[m11..m30]` and `[]`. -/
theorem getMessages_slice (store : MessageStore) (room : String) (offset limit : Int) :
    (getMessages store room offset limit =
      (((JsMap.get? store room).getD []).take
          (max 0 ((((JsMap.get? store room).getD []).length : Int) - offset)).toNat).drop
        (max 0 ((((JsMap.get? store room).getD []).length : Int) - offset - limit)).toNat) ∧
    ((getMessages store room offset limit).length : Int) ≤ max 0 limit ∧
    ((((JsMap.get? store room).getD []).length : Int) ≤ offset →
      getMessages store room offset limit = []) ∧
    (JsMap.get? store room = none → getMessages store room offset limit = []) ∧
    (∀ log : List Message, JsMap.get? store room = some log → log.length = 50 →
      getMessages store room 0 20 = log.drop 30 ∧
      getMessages store room 20 20 = (log.drop 10).take 20 ∧
      getMessages store room 100 20 = []) := by
  have key : ∀ off lim : Int, getMessages store room off lim =
      (((JsMap.get? store room).getD []).take
          (max 0 ((((JsMap.get? store room).getD []).length : Int) - off)).toNat).drop
        (max 0 ((((JsMap.get? store room).getD []).length : Int) - off - lim)).toNat := by
    intro off lim
    unfold getMessages
    exact jsSlice_range _ _ _ (le_max_left _ _) (le_max_left _ _)
  refine ⟨key offset limit, ?_, ?_, ?_, ?_⟩
  · rw [key]
    simp only [List.length_drop, List.length_take]
    omega
  · intro h
    rw [key]
    have h0 : (max 0 ((((JsMap.get? store room).getD []).length : Int) - offset)).toNat = 0 := by
      omega
    simp [h0]
  · intro h
    rw [key]
    simp [h]
  · intro log hlog hlen
    refine ⟨?_, ?_, ?_⟩
    · rw [key]
      simp only [hlog, Option.getD_some, hlen]
      have e1 : (max (0 : Int) (((50 : Nat) : Int) - 0)).toNat = 50 := by decide
      have e2 : (max (0 : Int) (((50 : Nat) : Int) - 0 - 20)).toNat = 30 := by decide
      rw [e1, e2, List.take_of_length_le (by omega)]
    · rw [key]
      simp only [hlog, Option.getD_some, hlen]
      have e1 : (max (0 : Int) (((50 : Nat) : Int) - 20)).toNat = 30 := by decide
      have e2 : (max (0 : Int) (((50 : Nat) : Int) - 20 - 20)).toNat = 10 := by decide
      rw [e1, e2, List.drop_take]
    · rw [key]
      simp only [hlog, Option.getD_some, hlen]
      have e1 : (max (0 : Int) (((50 : Nat) : Int) - 100)).toNat = 0 := by decide
      rw [e1]
      simp

/-- Instance of C2 on the fifty-message log stored under `"global"`. -/
theorem getMessages_slice_witness :
    JsMap.get? ([("global", fiftyLog)] : MessageStore) "global" = some fiftyLog ∧
    fiftyLog.length = 50 ∧
    getMessages [("global", fiftyLog)] "global" 0 20 = fiftyLog.drop 30 ∧
    getMessages [("global", fiftyLog)] "global" 20 20 = (fiftyLog.drop 10).take 20 ∧
    getMessages [("global", fiftyLog)] "global" 100 20 = [] :=
  ⟨by decide, by decide,
    (getMessages_slice [("global", fiftyLog)] "global" 0 0).2.2.2.2 fiftyLog (by decide) (by decide)⟩

/-! ## Appending with eviction (`saveMessage`) -/

/-- The log `saveMessage` leaves for `room`: the old log with `msg` appended,
cut to its last 1000 entries. -/
theorem saveMessage_get?_self (store : MessageStore) (room : String) (msg : Message) :
    JsMap.get? (saveMessage store room msg) room =
      some ((((JsMap.get? store room).getD []) ++ [msg]).drop
        ((((JsMap.get? store room).getD []) ++ [msg]).length - 1000)) := by
  have h1 : (JsMap.get? (if JsMap.has store room then store else JsMap.set store room []) room).getD []
      = (JsMap.get? store room).getD [] := by
    cases hg : JsMap.get? store room with
    | none => simp [JsMap.has, hg, JsMap.get?_set_self]
    | some l => simp [JsMap.has, hg]
  unfold saveMessage
  simp only [JsMap.get?_set_self, Option.getD_some, h1]
  by_cases hl : ((JsMap.get? store room).getD [] ++ [msg]).length > 1000
  · rw [if_pos hl, JsMap.get?_set_self]
    have := jsSlice_neg_none ((JsMap.get? store room).getD [] ++ [msg]) 1000 (by decide)
    simp only [Nat.cast_ofNat] at this
    rw [this]
  · rw [if_neg hl, JsMap.get?_set_self]
    have h0 : ((JsMap.get? store room).getD [] ++ [msg]).length - 1000 = 0 := by omega
    rw [h0, List.drop_zero]

/-- Logs of other rooms are untouched by `saveMessage`. -/
theorem saveMessage_get?_other (store : MessageStore) (room r : String) (msg : Message)
    (hne : room ≠ r) :
    JsMap.get? (saveMessage store room msg) r = JsMap.get? store r := by
  have h1 : JsMap.get? (if JsMap.has store room then store else JsMap.set store room []) r
      = JsMap.get? store r := by
    by_cases h : JsMap.has store room
    · simp [h]
    · simp [h, JsMap.get?_set_other _ _ _ _ hne]
  unfold saveMessage
  simp only []
  by_cases hl : ((JsMap.get? (JsMap.set (if JsMap.has store room then store
      else JsMap.set store room []) room
      ((JsMap.get? (if JsMap.has store room then store else JsMap.set store room []) room).getD []
        ++ [msg])) room).getD []).length > 1000
  · rw [if_pos hl, JsMap.get?_set_other _ _ _ _ hne, JsMap.get?_set_other _ _ _ _ hne, h1]
  · rw [if_neg hl, JsMap.get?_set_other _ _ _ _ hne, h1]

theorem drop_drop_append_last {α : Type} (a b : List α) (c : Nat) :
    (a.drop (a.length - c) ++ b).drop ((a.drop (a.length - c) ++ b).length - c) =
      (a ++ b).drop ((a ++ b).length - c) := by
  by_cases h : a.length ≤ c
  · have h0 : a.length - c = 0 := by omega
    rw [h0, List.drop_zero]
  · have hl : (a.drop (a.length - c) ++ b).length = c + b.length := by
      simp only [List.length_append, List.length_drop]
      omega
    rw [hl]
    have e1 : c + b.length - c = b.length := by omega
    have e2 : (a ++ b).length - c = (a.length - c) + b.length := by
      simp only [List.length_append]
      omega
    rw [e1, e2]
    apply List.ext_getElem?
    intro i
    simp only [List.getElem?_drop, List.getElem?_append, List.length_drop]
    by_cases h3 : b.length + i < a.length - (a.length - c)
    · have h4 : a.length - c + b.length + i < a.length := by omega
      simp only [h3, h4, if_true]
      congr 1
      omega
    · have h4 : ¬ a.length - c + b.length + i < a.length := by omega
      simp only [h3, h4, if_false]
      congr 1
      omega

/-- Log of `room` after appending `msgs` one by one. -/
theorem foldl_saveMessage_get? (room : String) (msgs : List Message) :
    ∀ store : MessageStore, msgs ≠ [] →
      ((JsMap.get? store room).getD []).length ≤ 1000 →
      JsMap.get? (msgs.foldl (fun st m => saveMessage st room m) store) room =
        some ((((JsMap.get? store room).getD []) ++ msgs).drop
          ((((JsMap.get? store room).getD []) ++ msgs).length - 1000)) := by
  induction msgs with
  | nil => intro store h; exact absurd rfl h
  | cons m rest ih =>
    intro store _ hlen
    rw [List.foldl_cons]
    by_cases hrest : rest = []
    · subst hrest
      rw [List.foldl_nil, saveMessage_get?_self]
    · have hlen2 : ((JsMap.get? (saveMessage store room m) room).getD []).length ≤ 1000 := by
        rw [saveMessage_get?_self]
        simp only [Option.getD_some, List.length_drop, List.length_append, List.length_singleton]
        omega
      rw [ih (saveMessage store room m) hrest hlen2, saveMessage_get?_self]
      simp only [Option.getD_some]
      rw [drop_drop_append_last, List.append_assoc, List.singleton_append]

/-- C3: appending `1000 + k` messages with `saveMessage` to a room whose log is
absent or empty leaves a log of exactly 1000 entries, the last 1000 appended in
the order of appending (the `k` oldest are gone), and
`getRecentMessages(room, 1000)` returns exactly that log. -/
theorem saveMessage_keeps_last_thousand (store : MessageStore) (room : String) (k : Nat)
    (msgs : List Message) (hempty : (JsMap.get? store room).getD [] = [])
    (hlen : msgs.length = 1000 + k) :
    JsMap.get? (msgs.foldl (fun st m => saveMessage st room m) store) room =
      some (msgs.drop k) ∧
    (msgs.drop k).length = 1000 ∧
    getRecentMessages (msgs.foldl (fun st m => saveMessage st room m) store) room 1000 =
      msgs.drop k := by
  have hne : msgs ≠ [] := by
    intro h
    rw [h] at hlen
    simp only [List.length_nil] at hlen
    omega
  have hget := foldl_saveMessage_get? room msgs store hne (by simp [hempty])
  rw [hempty, List.nil_append, hlen] at hget
  have hk : 1000 + k - 1000 = k := by omega
  rw [hk] at hget
  have hl : (msgs.drop k).length = 1000 := by
    rw [List.length_drop]
    omega
  refine ⟨hget, hl, ?_⟩
  unfold getRecentMessages
  simp only [JsMap.has, hget, Option.isSome_some, Bool.not_true, Bool.false_eq_true, if_false,
    Option.getD_some]
  rw [jsSlice_neg_none (msgs.drop k) 1000 (by decide), hl]
  simp

/-- Instance of C3: 1003 messages appended to the empty store. -/
theorem saveMessage_keeps_last_thousand_witness :
    (JsMap.get? ([] : MessageStore) "global").getD [] = [] ∧
    (List.replicate 1003 (Message.mk 0 "alice" none 0 none [] [])).length = 1000 + 3 ∧
    JsMap.get? ((List.replicate 1003 (Message.mk 0 "alice" none 0 none [] [])).foldl
        (fun st m => saveMessage st "global" m) []) "global" =
      some ((List.replicate 1003 (Message.mk 0 "alice" none 0 none [] [])).drop 3) :=
  ⟨rfl, List.length_replicate _ _,
    (saveMessage_keeps_last_thousand [] "global" 3
      (List.replicate 1003 (Message.mk 0 "alice" none 0 none [] [])) rfl
      (List.length_replicate _ _)).1⟩

/-! ## Private room names (`getPrivateRoomName`) -/

theorem unitsLt_irrefl (xs : List Nat) : unitsLt xs xs = false := by
  induction xs with
  | nil => rfl
  | cons x xs ih => simp [unitsLt, ih]

theorem unitsLt_asymm : ∀ xs ys : List Nat, unitsLt xs ys = true → unitsLt ys xs = false
  | _, [] => by intro h; simp [unitsLt] at h
  | [], _ :: _ => by intro _; simp [unitsLt]
  | x :: xs, y :: ys => by
    intro h
    simp only [unitsLt] at h ⊢
    by_cases h1 : x < y
    · have h2 : ¬ y < x := by omega
      simp [h1, h2]
    · by_cases h2 : y < x
      · simp [h1, h2] at h
      · simp only [h1, h2, if_false] at h ⊢
        exact unitsLt_asymm xs ys h

theorem unitsLt_total : ∀ xs ys : List Nat,
    unitsLt xs ys = false → unitsLt ys xs = false → xs = ys
  | [], [] => by intro _ _; rfl
  | [], _ :: _ => by intro h; simp [unitsLt] at h
  | _ :: _, [] => by intro _ h; simp [unitsLt] at h
  | x :: xs, y :: ys => by
    intro h h'
    simp only [unitsLt] at h h'
    by_cases h1 : x < y
    · simp [h1] at h
    · by_cases h2 : y < x
      · simp [h2] at h'
      · simp only [h1, h2, if_false] at h h'
        have hxy : x = y := by omega
        rw [hxy, unitsLt_total xs ys h h']

theorem char_toNat_valid (c : Char) :
    c.toNat < 0xD800 ∨ (0xDFFF < c.toNat ∧ c.toNat < 0x110000) := c.valid

theorem char_eq_of_toNat_eq (c d : Char) (h : c.toNat = d.toNat) : c = d :=
  Char.eq_of_val_eq (UInt32.ext h)

theorem flatMap_charUnits_injective : ∀ l1 l2 : List Char,
    l1.flatMap charUnits = l2.flatMap charUnits → l1 = l2
  | [], [] => by intro _; rfl
  | [], d :: t2 => by
    intro h
    simp only [List.flatMap_nil, List.flatMap_cons, charUnits] at h
    split at h <;> simp at h
  | c :: t1, [] => by
    intro h
    simp only [List.flatMap_nil, List.flatMap_cons, charUnits] at h
    split at h <;> simp at h
  | c :: t1, d :: t2 => by
    intro h
    simp only [List.flatMap_cons, charUnits] at h
    have hc := char_toNat_valid c
    have hd := char_toNat_valid d
    by_cases h1 : c.toNat < 0x10000 <;> by_cases h2 : d.toNat < 0x10000
    · simp only [h1, h2, if_true, List.singleton_append, List.cons.injEq] at h
      rw [char_eq_of_toNat_eq c d h.1, flatMap_charUnits_injective t1 t2 h.2]
    · simp only [h1, h2, if_true, if_false, List.singleton_append, List.cons_append,
        List.nil_append, List.cons.injEq] at h
      omega
    · simp only [h1, h2, if_true, if_false, List.singleton_append, List.cons_append,
        List.nil_append, List.cons.injEq] at h
      omega
    · simp only [h1, h2, if_false, List.cons_append, List.nil_append, List.cons.injEq] at h
      have hcd : c.toNat = d.toNat := by omega
      rw [char_eq_of_toNat_eq c d hcd, flatMap_charUnits_injective t1 t2 h.2.2]

theorem utf16_injective (a b : String) (h : utf16 a = utf16 b) : a = b := by
  have := flatMap_charUnits_injective a.toList b.toList h
  exact String.ext this

theorem getPrivateRoomName_eq (a b : String) :
    getPrivateRoomName a b =
      if jsStrLt b a then "private_" ++ (b ++ "_" ++ a) else "private_" ++ (a ++ "_" ++ b) := by
  unfold getPrivateRoomName jsSort jsJoin
  by_cases h : jsStrLt b a
  · simp [sortInsert, h, String.intercalate, String.intercalate.go]
  · simp [sortInsert, h, String.intercalate, String.intercalate.go]

/-- C10: `getPrivateRoomName` is symmetric, and its result is `"private_"`
followed by the two usernames, smaller one (in the order of `sort()`) first,
joined by `"_"`; for `"alice"` and `"bob"` it is `"private_alice_bob"` in either
argument order. -/
theorem getPrivateRoomName_symmetric (a b : String) :
    getPrivateRoomName a b = getPrivateRoomName b a ∧
    (∃ lo hi : String, ((lo = a ∧ hi = b) ∨ (lo = b ∧ hi = a)) ∧ jsStrLt hi lo = false ∧
      getPrivateRoomName a b = "private_" ++ (lo ++ "_" ++ hi)) ∧
    getPrivateRoomName "alice" "bob" = "private_alice_bob" ∧
    getPrivateRoomName "bob" "alice" = "private_alice_bob" := by
  refine ⟨?_, ?_, by decide, by decide⟩
  · rw [getPrivateRoomName_eq a b, getPrivateRoomName_eq b a]
    by_cases h1 : jsStrLt b a
    · have h2 : jsStrLt a b = false := unitsLt_asymm _ _ h1
      simp [h1, h2]
    · by_cases h2 : jsStrLt a b
      · simp [h1, h2]
      · have hab : a = b :=
          utf16_injective a b (unitsLt_total _ _ (by simpa [jsStrLt] using h2)
            (by simpa [jsStrLt] using h1))
        simp [hab]
  · rw [getPrivateRoomName_eq a b]
    by_cases h1 : jsStrLt b a
    · exact ⟨b, a, Or.inr ⟨rfl, rfl⟩, unitsLt_asymm _ _ h1, by simp [h1]⟩
    · exact ⟨a, b, Or.inl ⟨rfl, rfl⟩, by simpa using h1, by simp [h1]⟩

/-! ## Read receipts (`markMessageRead`) -/

theorem updateFirst_of_find?_none {α : Type} (p : α → Bool) (f : α → α) (l : List α)
    (h : l.find? p = none) : updateFirst p f l = l := by
  induction l with
  | nil => rfl
  | cons x xs ih =>
    by_cases hx : p x
    · simp [List.find?, hx] at h
    · simp only [List.find?, hx] at h
      simp [updateFirst, hx, ih h]

theorem find?_updateFirst {α : Type} (p : α → Bool) (f : α → α) (l : List α)
    (hp : ∀ x, p x = true → p (f x) = true) :
    (updateFirst p f l).find? p = (l.find? p).map f := by
  induction l with
  | nil => rfl
  | cons x xs ih =>
    by_cases hx : p x
    · simp [updateFirst, List.find?, hx, hp x hx]
    · simp [updateFirst, List.find?, hx, ih]

theorem updateFirst_idem {α : Type} (p : α → Bool) (f : α → α) (l : List α)
    (hp : ∀ x, p x = true → p (f x) = true) (hf : ∀ x, f (f x) = f x) :
    updateFirst p f (updateFirst p f l) = updateFirst p f l := by
  induction l with
  | nil => rfl
  | cons x xs ih =>
    by_cases hx : p x
    · simp [updateFirst, hx, hp x hx, hf]
    · simp [updateFirst, hx, ih]

theorem addReader_id (username : String) (m : Message) : (addReader username m).id = m.id := by
  unfold addReader
  split <;> rfl

theorem addReader_idem (username : String) (m : Message) :
    addReader username (addReader username m) = addReader username m := by
  by_cases h : username ∈ m.readBy
  · simp [addReader, h]
  · simp [addReader, h]

theorem markMessageRead_eq (store : MessageStore) (room : String) (messageId : Nat)
    (username : String) :
    markMessageRead store room messageId username =
      match JsMap.get? store room with
      | none => store
      | some arr =>
        JsMap.set store room (updateFirst (fun x => x.id == messageId) (addReader username) arr) :=
  rfl

/-! ## Identity registry -/

/-- C1: after a second connection logs in with a username that is already
bound, both connections hold that username in `users` while `usernameToSocket`
knows only the second one, so the two maps are not mutual inverses; when the
first connection then disconnects, the second one loses its binding in
`usernameToSocket` although it is still in `users`. -/
theorem login_takeover_breaks_inverses :
    JsMap.get? takeOverState.users "c1" = some { username := "alice", currentRoom := "global" } ∧
    JsMap.get? takeOverState.users "c2" = some { username := "alice", currentRoom := "global" } ∧
    JsMap.get? takeOverState.usernameToSocket "alice" = some "c2" ∧
    ¬ MutualInverses takeOverState ∧
    JsMap.get? (disconnect takeOverState "c1").1.usernameToSocket "alice" = none ∧
    JsMap.get? (disconnect takeOverState "c1").1.users "c2" =
      some { username := "alice", currentRoom := "global" } := by
  refine ⟨by decide, by decide, by decide, ?_, by decide, by decide⟩
  intro h
  have h1 := (h "alice" "c1").2 ⟨{ username := "alice", currentRoom := "global" }, by decide, rfl⟩
  revert h1
  decide

/-! ## Events that are dropped, and events that are not -/

/-- C5, as claimed, fails: a `sendMessage` event with neither text nor file from
the logged-in connection `c1` advances the id counter from 1 to 2, stores a
message and emits a `message` event. -/
theorem sendMessage_empty_not_noop :
    aliceOnline.messageIdCounter = 1 ∧
    (sendMessage aliceOnline "c1" none none none false none 7).1.messageIdCounter = 2 ∧
    JsMap.get? (sendMessage aliceOnline "c1" none none none false none 7).1.messageStore "global" =
      some [{ id := 1, sender := "alice", text := none, ts := 7, file := none, readBy := [],
              reactions := [] }] ∧
    (sendMessage aliceOnline "c1" none none none false none 7).2 =
      [ .emit (.to ["global"]) (.message "global"
          { id := 1, sender := "alice", text := none, ts := 7, file := none, readBy := [],
            reactions := [] }) ] := by
  decide

/-- C6, as claimed, fails: a `login` event whose username is a single space
completes on the server. -/
theorem login_blank_completes :
    JsMap.get? (login ServerState.init "c1" (some " ")).1.users "c1" =
      some { username := " ", currentRoom := "global" } ∧
    JsMap.get? (login ServerState.init "c1" (some " ")).1.usernameToSocket " " = some "c1" ∧
    JsMap.get? (login ServerState.init "c1" (some " ")).1.rooms "global" = some [" "] ∧
    ((login ServerState.init "c1" (some " ")).2.filter Effect.isEmit).length = 3 := by
  decide

/-- C7, as claimed, fails: `loadMore` from a connection that never logged in is
answered with an `olderMessages` event. -/
theorem loadMore_anonymous_answered :
    JsMap.get? ServerState.init.users "c1" = none ∧
    step ServerState.init "c1" (.loadMore none none none) =
      .ok (ServerState.init, [ .emit (.socket "c1") (.olderMessages none []) ]) := by
  decide

/-- C9: on a message without reactions, `addReaction` with the reaction kind
`"constructor"` throws a `TypeError` instead of recording the reaction, and so
does the `react` handler that calls it; with the kind `"like"` the same call
made twice leaves the one-element list `["alice"]`. -/
theorem addReaction_inherited_kind_throws :
    addReaction oneMessageStore "global" 1 "alice" "constructor" =
      .error (.typeError "m.reactions[reaction].includes is not a function") ∧
    step { aliceOnline with messageStore := oneMessageStore } "c1"
        (.react (some "global") 1 "constructor") =
      .error (.typeError "m.reactions[reaction].includes is not a function") ∧
    (addReaction oneMessageStore "global" 1 "alice" "like" >>= fun st =>
        addReaction st "global" 1 "alice" "like") =
      .ok [("global", [{ id := 1, sender := "bob", text := some "hi", ts := 0, file := none,
                         readBy := [], reactions := [("like", ["alice"])] }])] := by
  decide

/-- An event of any of the eight kinds that arrives without a payload makes the
handler throw, in every state and on every connection, logged in or not. -/
theorem step_noPayload_throws (s : ServerState) (c : String) (name : PayloadEvent) :
    step s c (.noPayload name) =
      .error (.typeError "Cannot destructure property of undefined or null") :=
  rfl

/-- C7, amended: for a connection without an entry in `users`, the events
`joinRoom`, `leaveRoom`, `sendMessage`, `typing`, `messageRead` and `react`
that arrive with a payload object leave the state unchanged and make no
socket.io call; `loadMore` with a payload object also leaves the state
unchanged but is answered with one `olderMessages` event, sent to the
requesting connection only, holding the requested page of the given room
(`"global"` when no room is given). -/
theorem anonymous_events_dropped (s : ServerState) (c : String)
    (hanon : JsMap.get? s.users c = none) :
    (∀ room, step s c (.joinRoom room) = .ok (s, [])) ∧
    (∀ room, step s c (.leaveRoom room) = .ok (s, [])) ∧
    (∀ room text toUserId isPrivate file now,
      step s c (.sendMessage room text toUserId isPrivate file now) = .ok (s, [])) ∧
    (∀ room isTyping toUserId isPrivate,
      step s c (.typing room isTyping toUserId isPrivate) = .ok (s, [])) ∧
    (∀ room messageId, step s c (.messageRead room messageId) = .ok (s, [])) ∧
    (∀ room messageId reaction, step s c (.react room messageId reaction) = .ok (s, [])) ∧
    (∀ room offset limit, step s c (.loadMore room offset limit) =
      .ok (s, [ .emit (.socket c) (.olderMessages room
        (getMessages s.messageStore (orElse room "global") (offset.getD 0) (limit.getD 20))) ])) := by
  refine ⟨?_, ?_, ?_, ?_, ?_, ?_, ?_⟩
  · intro room
    simp [step, joinRoom, hanon]
  · intro room
    simp [step, leaveRoom, hanon]
  · intro room text toUserId isPrivate file now
    simp [step, sendMessage, hanon]
  · intro room isTyping toUserId isPrivate
    simp [step, typing, hanon]
  · intro room messageId
    simp [step, messageRead, hanon]
  · intro room messageId reaction
    simp [step, react, hanon]
  · intro room offset limit
    simp [step, loadMore, hanon, orElse]

/-- Instance of C7 (amended) at the initial state and connection `c1`. -/
theorem anonymous_events_dropped_witness :
    JsMap.get? ServerState.init.users "c1" = none ∧
    step ServerState.init "c1" (.sendMessage none (some "hi") none false none 0) =
      .ok (ServerState.init, []) :=
  ⟨rfl, (anonymous_events_dropped ServerState.init "c1" rfl).2.2.1 none (some "hi") none false
    none 0⟩

theorem jsTrim_of_all_space (name : String) (h : ∀ ch ∈ name.toList, isJsSpace ch = true) :
    jsTrim name = "" := by
  unfold jsTrim
  have h1 : name.toList.dropWhile isJsSpace = [] := by
    rw [List.dropWhile_eq_nil_iff]
    exact h
  rw [h1]
  rfl

theorem roomAdd_get?_self (rooms : JsMap String (List String)) (room username : String) :
    JsMap.get? (roomAdd rooms room username) room =
      some (setAdd ((JsMap.get? rooms room).getD []) username) := by
  unfold roomAdd
  simp only []
  rw [JsMap.get?_set_self]
  cases hg : JsMap.get? rooms room with
  | none => simp [JsMap.has, hg, JsMap.get?_set_self]
  | some l => simp [JsMap.has, hg]

theorem roomAdd_get?_other (rooms : JsMap String (List String)) (room username r : String)
    (hne : room ≠ r) : JsMap.get? (roomAdd rooms room username) r = JsMap.get? rooms r := by
  unfold roomAdd
  simp only []
  rw [JsMap.get?_set_other _ _ _ _ hne]
  by_cases h : JsMap.has rooms room
  · simp [h]
  · simp [h, JsMap.get?_set_other _ _ _ _ hne]

/-- C6, amended: a `login` event whose payload has no username, or the empty
string, does not complete (state unchanged, no socket.io call).  A username
made of white space only is stopped in the client, whose `submit` does not call
`onLogin` for it.  On the server every non-empty username, white space
included, completes the login: `users` binds the connection to the username
with current room `"global"`, `usernameToSocket` binds the username to the
connection, the username joins the members of `"global"`, every other entry of
the three maps, the message store and the id counter stay as they were, the
socket joins `"global"`, and exactly three events are emitted, in this order:
`onlineUsers` with the keys of `usernameToSocket` to everybody, the
notification that the username joined `"global"` to that room, and `joined`
with the username, the room names and the recent messages of `"global"` to the
connection. -/
theorem login_empty_dropped (s : ServerState) (c : String) :
    step s c (.login none) = .ok (s, []) ∧
    step s c (.login (some "")) = .ok (s, []) ∧
    (∀ name : String, (∀ ch ∈ name.toList, isJsSpace ch = true) → Login.submit name = none) ∧
    (∀ name : String, name ≠ "" →
      ∃ s1 : ServerState,
        step s c (.login (some name)) =
          .ok (s1,
            [ .join c "global",
              .emit .all (.onlineUsers (JsMap.keys s1.usernameToSocket)),
              .emit (.to ["global"]) (.notification (name ++ " joined global")),
              .emit (.socket c)
                (.joined name (JsMap.keys s1.rooms) (getRecentMessages s.messageStore "global")) ]) ∧
        JsMap.get? s1.users c = some { username := name, currentRoom := "global" } ∧
        (∀ c2, c ≠ c2 → JsMap.get? s1.users c2 = JsMap.get? s.users c2) ∧
        JsMap.get? s1.usernameToSocket name = some c ∧
        (∀ n2, name ≠ n2 → JsMap.get? s1.usernameToSocket n2 = JsMap.get? s.usernameToSocket n2) ∧
        JsMap.get? s1.rooms "global" =
          some (setAdd ((JsMap.get? s.rooms "global").getD []) name) ∧
        name ∈ (JsMap.get? s1.rooms "global").getD [] ∧
        (∀ r, "global" ≠ r → JsMap.get? s1.rooms r = JsMap.get? s.rooms r) ∧
        s1.messageStore = s.messageStore ∧
        s1.messageIdCounter = s.messageIdCounter) := by
  refine ⟨rfl, rfl, ?_, ?_⟩
  · intro name h
    simp [Login.submit, jsTrim_of_all_space name h]
  · intro name hne
    refine ⟨(login s c (some name)).1, ?_, ?_, ?_, ?_, ?_, ?_, ?_, ?_, ?_, ?_⟩
    · simp [step, login, hne]
    · simp [login, hne, JsMap.get?_set_self]
    · intro c2 hc2
      simp [login, hne, JsMap.get?_set_other _ _ _ _ hc2]
    · simp [login, hne, JsMap.get?_set_self]
    · intro n2 hn2
      simp [login, hne, JsMap.get?_set_other _ _ _ _ hn2]
    · simp [login, hne, roomAdd_get?_self]
    · simp only [login, hne, if_false, roomAdd_get?_self, Option.getD_some]
      unfold setAdd
      split
      · assumption
      · simp
    · intro r hr
      simp [login, hne, roomAdd_get?_other _ _ _ _ hr]
    · simp [login, hne]
    · simp [login, hne]

/-- Instance of C6 (amended): the blank username `"  "` in the login form, and
the username `"alice"` on the server. -/
theorem login_empty_dropped_witness :
    (∀ ch ∈ ("  " : String).toList, isJsSpace ch = true) ∧ Login.submit "  " = none ∧
    ("alice" : String) ≠ "" ∧
    (∃ s1 : ServerState,
      step ServerState.init "c1" (.login (some "alice")) =
        .ok (s1,
          [ .join "c1" "global",
            .emit .all (.onlineUsers (JsMap.keys s1.usernameToSocket)),
            .emit (.to ["global"]) (.notification ("alice" ++ " joined global")),
            .emit (.socket "c1")
              (.joined "alice" (JsMap.keys s1.rooms)
                (getRecentMessages ServerState.init.messageStore "global")) ]) ∧
      JsMap.get? s1.usernameToSocket "alice" = some "c1") :=
  ⟨by decide,
   (login_empty_dropped ServerState.init "c1").2.2.1 "  " (by decide),
   by decide,
   match (login_empty_dropped ServerState.init "c1").2.2.2 "alice" (by decide) with
   | ⟨s1, h1, _, _, h4, _⟩ => ⟨s1, h1, h4⟩⟩

theorem getLast?_drop_of_lt {α : Type} (l : List α) (k : Nat) (h : k < l.length) :
    (l.drop k).getLast? = l.getLast? := by
  induction k generalizing l with
  | zero => rfl
  | succ n ih =>
    cases l with
    | nil => simp at h
    | cons x xs =>
      simp only [List.length_cons] at h
      rw [List.drop_succ_cons, ih xs (by omega)]
      cases xs with
      | nil => simp at h
      | cons y ys => simp [List.getLast?_cons_cons]

theorem saveMessage_getLast? (store : MessageStore) (room : String) (msg : Message) :
    ((JsMap.get? (saveMessage store room msg) room).getD []).getLast? = some msg := by
  rw [saveMessage_get?_self, Option.getD_some, getLast?_drop_of_lt]
  · simp
  · simp only [List.length_append, List.length_singleton]
    omega

/-- C5, amended: the server's `sendMessage` handler does not look at the
content.  From a logged-in connection an event whose payload has neither text
nor file is processed: it takes the next id and the counter grows by one; the
message, with `text` and `file` null, is appended as the newest entry of its
target log, which is then cut to its newest 1000 entries; the target is the
private room of sender and recipient when `isPrivate` and `toUserId` are set,
and otherwise the room named in the event, else the sender's current room, else
`"global"`; all other logs, `users`, `usernameToSocket` and `rooms` are
unchanged; and exactly one socket.io call is made: `message` to the target room,
or `privateMessage` to the recipient's and the sender's connections, or, when
the recipient has no connection, the notification that the recipient is offline
to the sender.  Such events are stopped in the client, whose `sendMessage`
emits nothing when the text is empty and no file is selected. -/
theorem sendMessage_empty_is_stored (s : ServerState) (c : String) (u : UserRec)
    (room text toUserId : Option String) (isPrivate : Bool) (now : Nat)
    (hu : JsMap.get? s.users c = some u) (htext : truthy text = false) :
    (∃ (s1 : ServerState) (out : List Effect) (target : String),
      step s c (.sendMessage room text toUserId isPrivate none now) = .ok (s1, out) ∧
      s1.messageIdCounter = s.messageIdCounter + 1 ∧
      s1.users = s.users ∧ s1.usernameToSocket = s.usernameToSocket ∧ s1.rooms = s.rooms ∧
      ((isPrivate && truthy toUserId) = true →
        target = getPrivateRoomName u.username (toUserId.getD "")) ∧
      ((isPrivate && truthy toUserId) = false →
        target = orElse room (orElse (some u.currentRoom) "global")) ∧
      JsMap.get? s1.messageStore target =
        some ((((JsMap.get? s.messageStore target).getD []) ++
            [emptyMessage s.messageIdCounter u.username now]).drop
          ((((JsMap.get? s.messageStore target).getD []) ++
            [emptyMessage s.messageIdCounter u.username now]).length - 1000)) ∧
      (∀ r, target ≠ r → JsMap.get? s1.messageStore r = JsMap.get? s.messageStore r) ∧
      ((isPrivate && truthy toUserId) = false →
        out = [ .emit (.to [target])
                  (.message target (emptyMessage s.messageIdCounter u.username now)) ]) ∧
      ((isPrivate && truthy toUserId) = true →
        ∀ sock, JsMap.get? s.usernameToSocket (toUserId.getD "") = some sock → sock ≠ "" →
        out = [ .emit (.to [sock, c])
                  (.privateMessage (emptyMessage s.messageIdCounter u.username now)) ]) ∧
      ((isPrivate && truthy toUserId) = true →
        (JsMap.get? s.usernameToSocket (toUserId.getD "") = none ∨
          JsMap.get? s.usernameToSocket (toUserId.getD "") = some "") →
        out = [ .emit (.socket c) (.notification (toUserId.getD "" ++ " is offline")) ])) ∧
    (∀ currentRoom uploaded, Chat.sendMessage currentRoom "" none uploaded = none) := by
  refine ⟨?_, ?_⟩
  swap
  · intro currentRoom uploaded
    simp [Chat.sendMessage]
  by_cases hp : (isPrivate && truthy toUserId) = true
  · refine ⟨(sendMessage s c room text toUserId isPrivate none now).1,
      (sendMessage s c room text toUserId isPrivate none now).2,
      getPrivateRoomName u.username (toUserId.getD ""), rfl, ?_, ?_, ?_, ?_, fun _ => rfl, ?_,
      ?_, ?_, ?_, ?_, ?_⟩
    · simp [sendMessage, hu, hp]
    · simp [sendMessage, hu, hp]
    · simp [sendMessage, hu, hp]
    · simp [sendMessage, hu, hp]
    · intro h
      rw [hp] at h
      exact absurd h (by decide)
    · simp only [sendMessage, hu, hp, htext, if_true, emptyMessage]
      exact saveMessage_get?_self _ _ _
    · intro r hr
      simp only [sendMessage, hu, hp, htext, if_true]
      exact saveMessage_get?_other _ _ _ _ hr
    · intro h
      rw [hp] at h
      exact absurd h (by decide)
    · intro _ sock hsock hne
      simp [sendMessage, hu, hp, htext, hsock, hne, emptyMessage]
    · intro _ hoff
      rcases hoff with hoff | hoff
      · simp [sendMessage, hu, hp, htext, hoff]
      · simp [sendMessage, hu, hp, htext, hoff]
  · rw [Bool.not_eq_true] at hp
    refine ⟨(sendMessage s c room text toUserId isPrivate none now).1,
      (sendMessage s c room text toUserId isPrivate none now).2,
      orElse room (orElse (some u.currentRoom) "global"), rfl, ?_, ?_, ?_, ?_, ?_,
      fun _ => rfl, ?_, ?_, ?_, ?_, ?_⟩
    · simp [sendMessage, hu, hp]
    · simp [sendMessage, hu, hp]
    · simp [sendMessage, hu, hp]
    · simp [sendMessage, hu, hp]
    · intro h
      rw [hp] at h
      exact absurd h (by decide)
    · simp only [sendMessage, hu, hp, htext, Bool.false_eq_true, if_false, emptyMessage]
      exact saveMessage_get?_self _ _ _
    · intro r hr
      simp only [sendMessage, hu, hp, htext, Bool.false_eq_true, if_false]
      exact saveMessage_get?_other _ _ _ _ hr
    · intro _
      simp [sendMessage, hu, hp, htext, emptyMessage]
    · intro h
      rw [hp] at h
      exact absurd h (by decide)
    · intro h
      rw [hp] at h
      exact absurd h (by decide)

/-- Instance of C5 (amended): `"alice"`, logged in on `c1`, sends an event
without text and file. -/
theorem sendMessage_empty_is_stored_witness :
    JsMap.get? aliceOnline.users "c1" = some { username := "alice", currentRoom := "global" } ∧
    truthy none = false ∧
    (∃ (s1 : ServerState) (out : List Effect),
      step aliceOnline "c1" (.sendMessage none none none false none 7) = .ok (s1, out) ∧
      s1.messageIdCounter = aliceOnline.messageIdCounter + 1) :=
  ⟨by decide, rfl,
   match (sendMessage_empty_is_stored aliceOnline "c1"
      { username := "alice", currentRoom := "global" } none none none false 7 (by decide)
      rfl).1 with
   | ⟨s1, out, _, h1, h2, _⟩ => ⟨s1, out, h1, h2⟩⟩

/-! ## Message ids -/

section JsMapKeys

variable {κ ν : Type} [DecidableEq κ]

theorem JsMap.get?_eq_none_iff (m : JsMap κ ν) (k : κ) :
    JsMap.get? m k = none ↔ k ∉ JsMap.keys m := by
  induction m with
  | nil => simp [JsMap.get?, JsMap.keys]
  | cons e rest ih =>
    obtain ⟨k', v'⟩ := e
    by_cases h : k' = k
    · simp [JsMap.get?, JsMap.keys, h]
    · have h2 : ¬ k = k' := fun h3 => h h3.symm
      simp only [JsMap.get?, h, if_false, ih]
      simp [JsMap.keys, h2]

theorem JsMap.keys_set (m : JsMap κ ν) (k : κ) (v : ν) :
    JsMap.keys (JsMap.set m k v) = if k ∈ JsMap.keys m then JsMap.keys m else JsMap.keys m ++ [k] := by
  induction m with
  | nil => simp [JsMap.set, JsMap.keys]
  | cons e rest ih =>
    obtain ⟨k', v'⟩ := e
    by_cases h : k' = k
    · simp [JsMap.set, JsMap.keys, h]
    · have h2 : ¬ k = k' := fun h3 => h h3.symm
      simp only [JsMap.keys] at ih
      simp only [JsMap.set, h, if_false, JsMap.keys, List.map_cons, List.mem_cons, h2, false_or, ih]
      split <;> simp

theorem JsMap.keys_set_nodup (m : JsMap κ ν) (k : κ) (v : ν) (h : (JsMap.keys m).Nodup) :
    (JsMap.keys (JsMap.set m k v)).Nodup := by
  rw [JsMap.keys_set]
  split
  · exact h
  · rename_i hk
    rw [List.nodup_append]
    refine ⟨h, List.nodup_singleton _, ?_⟩
    intro x hx hx2
    rw [List.mem_singleton] at hx2
    exact hk (hx2 ▸ hx)

end JsMapKeys

theorem saveMessage_keys_nodup (store : MessageStore) (room : String) (msg : Message)
    (h : (JsMap.keys store).Nodup) : (JsMap.keys (saveMessage store room msg)).Nodup := by
  unfold saveMessage
  simp only []
  split_ifs <;> repeat (first | exact h | apply JsMap.keys_set_nodup)

theorem logIds_saveMessage_self (store : MessageStore) (room : String) (msg : Message) :
    logIds (saveMessage store room msg) room =
      (logIds store room ++ [msg.id]).drop ((logIds store room ++ [msg.id]).length - 1000) := by
  unfold logIds
  rw [saveMessage_get?_self]
  simp [List.map_drop]

theorem logIds_saveMessage_other (store : MessageStore) (room r : String) (msg : Message)
    (hne : room ≠ r) : logIds (saveMessage store room msg) r = logIds store r := by
  unfold logIds
  rw [saveMessage_get?_other _ _ _ _ hne]

theorem map_id_updateFirst (p : Message → Bool) (f : Message → Message) (l : List Message)
    (hf : ∀ x ∈ l, p x = true → (f x).id = x.id) :
    (updateFirst p f l).map Message.id = l.map Message.id := by
  induction l with
  | nil => rfl
  | cons x xs ih =>
    by_cases hx : p x
    · simp [updateFirst, hx, hf x (List.mem_cons_self _ _) hx]
    · simp [updateFirst, hx, ih (fun y hy => hf y (List.mem_cons_of_mem _ hy))]

theorem logIds_set_same_ids (store : MessageStore) (room : String) (arr arr2 : List Message)
    (hget : JsMap.get? store room = some arr) (hids : arr2.map Message.id = arr.map Message.id)
    (r : String) : logIds (JsMap.set store room arr2) r = logIds store r := by
  unfold logIds
  by_cases hr : room = r
  · subst hr
    rw [JsMap.get?_set_self, hget]
    exact hids
  · rw [JsMap.get?_set_other _ _ _ _ hr]

theorem keys_set_of_get? (store : MessageStore) (room : String) (arr arr2 : List Message)
    (hget : JsMap.get? store room = some arr) :
    JsMap.keys (JsMap.set store room arr2) = JsMap.keys store := by
  rw [JsMap.keys_set]
  have : room ∈ JsMap.keys store := by
    by_contra hc
    rw [← JsMap.get?_eq_none_iff] at hc
    rw [hc] at hget
    exact Option.noConfusion hget
  simp [this]

theorem logIds_markMessageRead (store : MessageStore) (room : String) (messageId : Nat)
    (username r : String) :
    logIds (markMessageRead store room messageId username) r = logIds store r := by
  rw [markMessageRead_eq]
  cases hg : JsMap.get? store room with
  | none => rfl
  | some arr =>
    simp only []
    apply logIds_set_same_ids _ _ _ _ hg
    apply map_id_updateFirst
    intro x _ _
    exact addReader_id _ _

theorem keys_markMessageRead (store : MessageStore) (room : String) (messageId : Nat)
    (username : String) :
    JsMap.keys (markMessageRead store room messageId username) = JsMap.keys store := by
  rw [markMessageRead_eq]
  cases hg : JsMap.get? store room with
  | none => rfl
  | some arr => exact keys_set_of_get? _ _ _ _ hg

theorem reactOn_id (m m1 : Message) (username reaction : String)
    (h : reactOn m username reaction = .ok m1) : m1.id = m.id := by
  unfold reactOn at h
  simp only [] at h
  split at h
  · split at h
    · cases h; split <;> rfl
    · cases h; split <;> rfl
  · cases h

theorem addReaction_ids (store store1 : MessageStore) (room : String) (messageId : Nat)
    (username reaction : String)
    (h : addReaction store room messageId username reaction = .ok store1) :
    (∀ r, logIds store1 r = logIds store r) ∧ JsMap.keys store1 = JsMap.keys store := by
  unfold addReaction at h
  simp only [] at h
  split at h
  · cases h
    exact ⟨fun _ => rfl, rfl⟩
  · rename_i m hfind
    split at h
    · cases h
    · rename_i m1 hreact
      cases h
      cases hg : JsMap.get? store room with
      | none =>
        rw [hg] at hfind
        simp at hfind
      | some arr =>
        rw [hg, Option.getD_some] at hfind
        simp only [Option.getD_some]
        refine ⟨fun r => ?_, keys_set_of_get? _ _ _ _ hg⟩
        apply logIds_set_same_ids _ _ _ _ hg
        clear hg
        induction arr with
        | nil => rfl
        | cons x xs ih =>
          by_cases hx : (x.id == messageId) = true
          · simp only [List.find?, hx, Option.some.injEq] at hfind
            subst hfind
            simp [updateFirst, hx, reactOn_id _ _ _ _ hreact]
          · simp only [List.find?, hx] at hfind
            simp [updateFirst, hx, ih hfind]

theorem IdsOk.of_logIds {s s1 : ServerState} (h : IdsOk s)
    (hids : ∀ r, logIds s1.messageStore r = logIds s.messageStore r)
    (hkeys : JsMap.keys s1.messageStore = JsMap.keys s.messageStore)
    (hc : s1.messageIdCounter = s.messageIdCounter) : IdsOk s1 where
  increasing := fun room => by rw [hids]; exact h.increasing room
  below := fun room i hi => by rw [hids] at hi; rw [hc]; exact h.below room i hi
  apart := fun r1 r2 hne i hi => by rw [hids] at hi ⊢; exact h.apart r1 r2 hne i hi
  keysNodup := by rw [hkeys]; exact h.keysNodup

theorem IdsOk.of_store_eq {s s1 : ServerState} (h : IdsOk s)
    (hstore : s1.messageStore = s.messageStore)
    (hc : s1.messageIdCounter = s.messageIdCounter) : IdsOk s1 :=
  h.of_logIds (fun r => by rw [hstore]) (by rw [hstore]) hc

theorem IdsOk.init : IdsOk ServerState.init where
  increasing := fun _ => List.Pairwise.nil
  below := fun _ i hi => by simp [logIds, ServerState.init, JsMap.get?] at hi
  apart := fun _ _ _ i hi => by simp [logIds, ServerState.init, JsMap.get?] at hi
  keysNodup := List.nodup_nil

theorem mem_logIds_saveMessage (store : MessageStore) (room : String) (msg : Message) (i : Nat)
    (hi : i ∈ logIds (saveMessage store room msg) room) :
    i ∈ logIds store room ∨ i = msg.id := by
  rw [logIds_saveMessage_self] at hi
  have := List.mem_of_mem_drop hi
  simpa using this

theorem IdsOk.save {s : ServerState} (h : IdsOk s) (room : String) (msg : Message)
    (hid : msg.id = s.messageIdCounter) :
    IdsOk { s with messageIdCounter := s.messageIdCounter + 1,
                   messageStore := saveMessage s.messageStore room msg } where
  increasing := fun r => by
    by_cases hr : room = r
    · subst hr
      simp only []
      rw [logIds_saveMessage_self]
      apply List.Pairwise.sublist (List.drop_sublist _ _)
      rw [List.pairwise_append]
      refine ⟨h.increasing room, List.pairwise_singleton _ _, ?_⟩
      intro a ha b hb
      rw [List.mem_singleton] at hb
      rw [hb, hid]
      exact h.below room a ha
    · simp only []
      rw [logIds_saveMessage_other _ _ _ _ hr]
      exact h.increasing r
  below := fun r i hi => by
    simp only [] at hi ⊢
    by_cases hr : room = r
    · subst hr
      rcases mem_logIds_saveMessage _ _ _ _ hi with h1 | h1
      · exact Nat.lt_succ_of_lt (h.below room i h1)
      · omega
    · rw [logIds_saveMessage_other _ _ _ _ hr] at hi
      exact Nat.lt_succ_of_lt (h.below r i hi)
  apart := fun r1 r2 hne i hi hi2 => by
    simp only [] at hi hi2
    by_cases h1 : room = r1
    · subst h1
      rw [logIds_saveMessage_other _ _ _ _ hne] at hi2
      rcases mem_logIds_saveMessage _ _ _ _ hi with h3 | h3
      · exact h.apart room r2 hne i h3 hi2
      · have := h.below r2 i hi2
        omega
    · rw [logIds_saveMessage_other _ _ _ _ h1] at hi
      by_cases h2 : room = r2
      · subst h2
        rcases mem_logIds_saveMessage _ _ _ _ hi2 with h3 | h3
        · exact h.apart r1 room hne i hi h3
        · have := h.below r1 i hi
          omega
      · rw [logIds_saveMessage_other _ _ _ _ h2] at hi2
        exact h.apart r1 r2 hne i hi hi2
  keysNodup := saveMessage_keys_nodup _ _ _ h.keysNodup

/-- One processed event keeps the id discipline, never lowers the counter, and
an assigned id is the old counter value, after which the counter is one higher. -/
theorem step_idsOk (s s1 : ServerState) (c : String) (e : Event) (out : List Effect)
    (h : IdsOk s) (hstep : step s c e = .ok (s1, out)) :
    IdsOk s1 ∧ s.messageIdCounter ≤ s1.messageIdCounter ∧
    (∀ i, assignedId s c e = some i →
      i = s.messageIdCounter ∧ s1.messageIdCounter = s.messageIdCounter + 1) := by
  cases e with
  | login username =>
    simp only [step, Except.ok.injEq] at hstep
    have h1 : s1.messageStore = s.messageStore ∧ s1.messageIdCounter = s.messageIdCounter := by
      have hs1 : s1 = (login s c username).1 := by rw [hstep]
      rw [hs1]
      unfold login
      split
      · exact ⟨rfl, rfl⟩
      · split <;> exact ⟨rfl, rfl⟩
    exact ⟨h.of_store_eq h1.1 h1.2, by omega, by simp [assignedId]⟩
  | joinRoom room =>
    simp only [step, Except.ok.injEq] at hstep
    have h1 : s1.messageStore = s.messageStore ∧ s1.messageIdCounter = s.messageIdCounter := by
      have hs1 : s1 = (joinRoom s c room).1 := by rw [hstep]
      rw [hs1]
      unfold joinRoom
      split <;> exact ⟨rfl, rfl⟩
    exact ⟨h.of_store_eq h1.1 h1.2, by omega, by simp [assignedId]⟩
  | leaveRoom room =>
    simp only [step, Except.ok.injEq] at hstep
    have h1 : s1.messageStore = s.messageStore ∧ s1.messageIdCounter = s.messageIdCounter := by
      have hs1 : s1 = (leaveRoom s c room).1 := by rw [hstep]
      rw [hs1]
      unfold leaveRoom
      split <;> exact ⟨rfl, rfl⟩
    exact ⟨h.of_store_eq h1.1 h1.2, by omega, by simp [assignedId]⟩
  | sendMessage room text toUserId isPrivate file now =>
    simp only [step, Except.ok.injEq] at hstep
    cases hu : JsMap.get? s.users c with
    | none =>
      simp only [sendMessage, hu, Prod.mk.injEq] at hstep
      rw [← hstep.1]
      exact ⟨h, le_refl _, by simp [assignedId, hu]⟩
    | some u =>
      by_cases hp : (isPrivate && truthy toUserId) = true
      · simp only [sendMessage, hu, hp, if_true, Prod.mk.injEq] at hstep
        rw [← hstep.1]
        exact ⟨h.save _ _ rfl, Nat.le_succ _, by simp [assignedId, hu]⟩
      · rw [Bool.not_eq_true] at hp
        simp only [sendMessage, hu, hp, Bool.false_eq_true, if_false, Prod.mk.injEq] at hstep
        rw [← hstep.1]
        exact ⟨h.save _ _ rfl, Nat.le_succ _, by simp [assignedId, hu]⟩
  | typing room isTyping toUserId isPrivate =>
    simp only [step, Except.ok.injEq] at hstep
    have h1 : s1 = s := by
      have hs1 : s1 = (typing s c room isTyping toUserId isPrivate).1 := by rw [hstep]
      rw [hs1]
      unfold typing
      split
      · rfl
      · split
        · split
          · split <;> rfl
          · rfl
        · rfl
    rw [h1]
    exact ⟨h, le_refl _, by simp [assignedId]⟩
  | messageRead room messageId =>
    simp only [step, Except.ok.injEq] at hstep
    cases hu : JsMap.get? s.users c with
    | none =>
      simp only [messageRead, hu, Prod.mk.injEq] at hstep
      rw [← hstep.1]
      exact ⟨h, le_refl _, by simp [assignedId]⟩
    | some u =>
      simp only [messageRead, hu, Prod.mk.injEq] at hstep
      rw [← hstep.1]
      exact ⟨h.of_logIds (fun r => logIds_markMessageRead _ _ _ _ r)
        (keys_markMessageRead _ _ _ _) rfl, le_refl _, by simp [assignedId]⟩
  | react room messageId reaction =>
    simp only [step] at hstep
    cases hu : JsMap.get? s.users c with
    | none =>
      simp only [react, hu, Except.ok.injEq, Prod.mk.injEq] at hstep
      rw [← hstep.1]
      exact ⟨h, le_refl _, by simp [assignedId]⟩
    | some u =>
      simp only [react, hu] at hstep
      split at hstep
      · cases hstep
      · rename_i store hadd
        simp only [Except.ok.injEq, Prod.mk.injEq] at hstep
        rw [← hstep.1]
        have := addReaction_ids _ _ _ _ _ _ hadd
        exact ⟨h.of_logIds this.1 this.2 rfl, le_refl _, by simp [assignedId]⟩
  | loadMore room offset limit =>
    simp only [step, loadMore, Except.ok.injEq, Prod.mk.injEq] at hstep
    rw [← hstep.1]
    exact ⟨h, le_refl _, by simp [assignedId]⟩
  | disconnect =>
    simp only [step, Except.ok.injEq] at hstep
    have h1 : s1.messageStore = s.messageStore ∧ s1.messageIdCounter = s.messageIdCounter := by
      have hs1 : s1 = (disconnect s c).1 := by rw [hstep]
      rw [hs1]
      unfold disconnect
      split <;> exact ⟨rfl, rfl⟩
    exact ⟨h.of_store_eq h1.1 h1.2, by omega, by simp [assignedId]⟩
  | noPayload name => simp [step] at hstep

/-- Processing any list of events keeps the id discipline; the ids assigned on
the way are strictly increasing and lie between the counter before and the
counter after. -/
theorem run_idsOk : ∀ (evs : List (String × Event)) (s : ServerState), IdsOk s →
    IdsOk (run s evs).1 ∧ s.messageIdCounter ≤ (run s evs).1.messageIdCounter ∧
    (assignedIds s evs).Pairwise (· < ·) ∧
    (∀ i ∈ assignedIds s evs, s.messageIdCounter ≤ i ∧ i < (run s evs).1.messageIdCounter)
  | [], s, h => ⟨h, le_refl _, List.Pairwise.nil, fun i hi => by simp [assignedIds] at hi⟩
  | (c, e) :: rest, s, h => by
    cases hstep : step s c e with
    | error err =>
      simp only [run, assignedIds, hstep]
      exact ⟨h, le_refl _, List.Pairwise.nil, fun i hi => by simp at hi⟩
    | ok r =>
      obtain ⟨s1, out⟩ := r
      obtain ⟨h1, hle, hassign⟩ := step_idsOk s s1 c e out h hstep
      obtain ⟨h2, hle2, hpw, hrange⟩ := run_idsOk rest s1 h1
      simp only [run, assignedIds, hstep]
      refine ⟨h2, le_trans hle hle2, ?_, ?_⟩
      · rw [List.pairwise_append]
        refine ⟨?_, hpw, ?_⟩
        · cases assignedId s c e <;> simp
        · intro a ha b hb
          cases ha1 : assignedId s c e with
          | none => simp [ha1] at ha
          | some i =>
            simp only [ha1, Option.toList_some, List.mem_singleton] at ha
            have := hassign i ha1
            have := (hrange b hb).1
            omega
      · intro i hi
        rw [List.mem_append] at hi
        rcases hi with hi | hi
        · cases ha1 : assignedId s c e with
          | none => simp [ha1] at hi
          | some j =>
            simp only [ha1, Option.toList_some, List.mem_singleton] at hi
            have := hassign j ha1
            omega
        · have := hrange i hi
          omega

theorem pairwise_lt_getElem? (l : List Message) (h : (l.map Message.id).Pairwise (· < ·))
    (i j : Nat) (m1 m2 : Message) (h1 : l[i]? = some m1) (h2 : l[j]? = some m2) (hij : i < j) :
    m1.id < m2.id := by
  rw [List.pairwise_map] at h
  rw [List.pairwise_iff_getElem] at h
  obtain ⟨hi, hi2⟩ := List.getElem?_eq_some_iff.mp h1
  obtain ⟨hj, hj2⟩ := List.getElem?_eq_some_iff.mp h2
  rw [← hi2, ← hj2]
  exact h i j hi hj hij

/-- C4: for every sequence of events processed from the initial state, the ids
given to new messages are strictly increasing in processing order, so none is
given twice; each assigned id is the id of the message that the same event
stores as the newest entry of its target log; and in the resulting store any
two messages at different places (another room, or another position of the
same log) have different ids, ids grow strictly from older to newer within a
log, and every room has a single log. -/
theorem message_ids_strictly_increasing (evs : List (String × Event)) :
    (assignedIds ServerState.init evs).Pairwise (· < ·) ∧
    (assignedIds ServerState.init evs).Nodup ∧
    (∀ (s : ServerState) (c : String) (e : Event) (i : Nat), assignedId s c e = some i →
      ∃ s1 out target, step s c e = .ok (s1, out) ∧
        (logIds s1.messageStore target).getLast? = some i) ∧
    (∀ (r1 r2 : String) (i j : Nat) (m1 m2 : Message),
      ((JsMap.get? (run ServerState.init evs).1.messageStore r1).getD [])[i]? = some m1 →
      ((JsMap.get? (run ServerState.init evs).1.messageStore r2).getD [])[j]? = some m2 →
      r1 ≠ r2 ∨ i ≠ j → m1.id ≠ m2.id) ∧
    (∀ (r : String) (i j : Nat) (m1 m2 : Message),
      ((JsMap.get? (run ServerState.init evs).1.messageStore r).getD [])[i]? = some m1 →
      ((JsMap.get? (run ServerState.init evs).1.messageStore r).getD [])[j]? = some m2 →
      i < j → m1.id < m2.id) ∧
    (JsMap.keys (run ServerState.init evs).1.messageStore).Nodup := by
  obtain ⟨hok, _, hpw, _⟩ := run_idsOk evs ServerState.init IdsOk.init
  have hsorted : ∀ (r : String) (i j : Nat) (m1 m2 : Message),
      ((JsMap.get? (run ServerState.init evs).1.messageStore r).getD [])[i]? = some m1 →
      ((JsMap.get? (run ServerState.init evs).1.messageStore r).getD [])[j]? = some m2 →
      i < j → m1.id < m2.id := by
    intro r i j m1 m2 h1 h2 hij
    exact pairwise_lt_getElem? _ (hok.increasing r) i j m1 m2 h1 h2 hij
  refine ⟨hpw, ?_, ?_, ?_, hsorted, hok.keysNodup⟩
  · exact hpw.imp (fun h => Nat.ne_of_lt h)
  · intro s c e i hi
    cases e with
    | sendMessage room text toUserId isPrivate file now =>
      cases hu : JsMap.get? s.users c with
      | none => simp [assignedId, hu] at hi
      | some u =>
        simp only [assignedId, hu, Option.map_some', Option.some.injEq] at hi
        have hlast : ∀ target msg, msg.id = i →
            (logIds (saveMessage s.messageStore target msg) target).getLast? = some i := by
          intro target msg hmsg
          unfold logIds
          rw [List.getLast?_map, saveMessage_getLast?, Option.map_some', hmsg]
        by_cases hp : (isPrivate && truthy toUserId) = true
        · refine ⟨_, _, getPrivateRoomName u.username (toUserId.getD ""), rfl, ?_⟩
          simp only [sendMessage, hu, hp, if_true]
          exact hlast _ _ hi
        · rw [Bool.not_eq_true] at hp
          refine ⟨_, _, orElse room (orElse (some u.currentRoom) "global"), rfl, ?_⟩
          simp only [sendMessage, hu, hp, Bool.false_eq_true, if_false]
          exact hlast _ _ hi
    | _ => simp [assignedId] at hi
  · intro r1 r2 i j m1 m2 h1 h2 hne
    by_cases hr : r1 = r2
    · subst hr
      have hij : i ≠ j := by
        rcases hne with h | h
        · exact absurd rfl h
        · exact h
      rcases Nat.lt_or_gt_of_ne hij with hlt | hgt
      · exact Nat.ne_of_lt (hsorted r1 i j m1 m2 h1 h2 hlt)
      · exact Nat.ne_of_gt (hsorted r1 j i m2 m1 h2 h1 hgt)
    · intro heq
      have hm1 : m1.id ∈ logIds (run ServerState.init evs).1.messageStore r1 :=
        List.mem_map_of_mem _ (List.getElem?_mem h1)
      have hm2 : m2.id ∈ logIds (run ServerState.init evs).1.messageStore r2 :=
        List.mem_map_of_mem _ (List.getElem?_mem h2)
      rw [← heq] at hm2
      exact hok.apart r1 r2 hr _ hm1 hm2

theorem scenario_ids :
    assignedIds ServerState.init scenario = [1, 2, 3] ∧
    JsMap.keys (run ServerState.init scenario).1.messageStore =
      ["global", "devs", "private_alice_bob"] ∧
    (run ServerState.init scenario).1.messageIdCounter = 4 := by
  decide

/-! ## Reactions with a kind that is not an inherited property name -/

theorem reactOn_own_kind (m : Message) (username reaction : String)
    (hr : reaction ∉ objectPrototypeKeys) :
    ∃ m1 : Message, reactOn m username reaction = .ok m1 ∧ m1.id = m.id ∧
      JsMap.get? m1.reactions reaction =
        some (setAdd ((JsMap.get? m.reactions reaction).getD []) username) ∧
      reactOn m1 username reaction = .ok m1 := by
  cases hg : JsMap.get? m.reactions reaction with
  | some l0 =>
    by_cases hu : username ∈ l0
    · refine ⟨m, ?_, rfl, ?_, ?_⟩
      · simp [reactOn, readProp, hg, hu]
      · simp [hg, setAdd, hu]
      · simp [reactOn, readProp, hg, hu]
    · refine ⟨{ m with reactions := JsMap.set m.reactions reaction (l0 ++ [username]) },
        ?_, rfl, ?_, ?_⟩
      · simp [reactOn, readProp, hg, hu]
      · simp [setAdd, hu, JsMap.get?_set_self]
      · simp [reactOn, readProp, JsMap.get?_set_self]
  | none =>
    refine ⟨{ m with reactions := JsMap.set m.reactions reaction [username] }, ?_, rfl, ?_, ?_⟩
    · simp [reactOn, readProp, hg, hr, JsMap.get?_set_self, JsMap.set_set]
    · simp [setAdd, JsMap.get?_set_self]
    · simp [reactOn, readProp, JsMap.get?_set_self]

/-- Outside the inherited property names `addReaction` behaves as a set
insertion: it succeeds, a second identical call changes nothing, and the found
message then lists the username for the kind, once if it was listed at most
once before, and alone if the kind had no list. -/
theorem addReaction_own_kind_idempotent (store : MessageStore) (room : String) (messageId : Nat)
    (username reaction : String) (hr : reaction ∉ objectPrototypeKeys) :
    ∃ store1 : MessageStore,
      addReaction store room messageId username reaction = .ok store1 ∧
      addReaction store1 room messageId username reaction = .ok store1 ∧
      (∀ m : Message,
        ((JsMap.get? store room).getD []).find? (fun x => x.id == messageId) = some m →
        ∃ m1 : Message,
          ((JsMap.get? store1 room).getD []).find? (fun x => x.id == messageId) = some m1 ∧
          JsMap.get? m1.reactions reaction =
            some (setAdd ((JsMap.get? m.reactions reaction).getD []) username)) := by
  cases hfind : ((JsMap.get? store room).getD []).find? (fun x => x.id == messageId) with
  | none =>
    refine ⟨store, ?_, ?_, ?_⟩
    · simp [addReaction, hfind]
    · simp [addReaction, hfind]
    · intro m hm
      exact Option.noConfusion hm
  | some m =>
    obtain ⟨m1, hm1, hid, hget, hagain⟩ := reactOn_own_kind m username reaction hr
    have hp : ∀ x : Message, (x.id == messageId) = true →
        (((fun _ => m1) x : Message).id == messageId) = true := by
      intro x _
      have := List.find?_some hfind
      simp only [] at this ⊢
      rw [hid]
      exact this
    cases hg : JsMap.get? store room with
    | none => simp [hg] at hfind
    | some arr =>
      rw [hg, Option.getD_some] at hfind
      have hfind1 : (updateFirst (fun x => x.id == messageId) (fun _ => m1) arr).find?
          (fun x => x.id == messageId) = some m1 := by
        rw [find?_updateFirst _ _ _ hp, hfind]
        rfl
      refine ⟨JsMap.set store room (updateFirst (fun x => x.id == messageId) (fun _ => m1) arr),
        ?_, ?_, ?_⟩
      · simp [addReaction, hg, hfind, hm1]
      · simp only [addReaction, JsMap.get?_set_self, Option.getD_some, hfind1, hagain]
        rw [JsMap.set_set, updateFirst_idem _ _ _ hp (fun _ => rfl)]
      · intro m0 hm0
        cases hm0
        exact ⟨m1, by rw [JsMap.get?_set_self, Option.getD_some, hfind1], hget⟩

/-! ## Duplicate-free `readBy` in every reachable state -/

theorem mem_updateFirst {α : Type} (p : α → Bool) (f : α → α) (l : List α) (y : α)
    (h : y ∈ updateFirst p f l) : y ∈ l ∨ ∃ x ∈ l, p x = true ∧ l.find? p = some x ∧ y = f x := by
  induction l with
  | nil => simp [updateFirst] at h
  | cons x xs ih =>
    by_cases hx : p x
    · simp only [updateFirst, hx, if_true, List.mem_cons] at h
      rcases h with h | h
      · exact Or.inr ⟨x, List.mem_cons_self _ _, hx, by simp [List.find?, hx], h⟩
      · exact Or.inl (List.mem_cons_of_mem _ h)
    · simp only [updateFirst, hx, Bool.false_eq_true, if_false, List.mem_cons] at h
      rcases h with h | h
      · exact Or.inl (h ▸ List.mem_cons_self _ _)
      · rcases ih h with h1 | ⟨z, hz, hpz, hfz, hy⟩
        · exact Or.inl (List.mem_cons_of_mem _ h1)
        · exact Or.inr ⟨z, List.mem_cons_of_mem _ hz, hpz, by simp [List.find?, hx, hfz], hy⟩

theorem addReader_nodup (username : String) (m : Message) (h : m.readBy.Nodup) :
    (addReader username m).readBy.Nodup := by
  by_cases hu : username ∈ m.readBy
  · simpa [addReader, hu] using h
  · simp only [addReader, hu, if_false]
    rw [List.nodup_append]
    refine ⟨h, List.nodup_singleton _, ?_⟩
    intro x hx hx2
    rw [List.mem_singleton] at hx2
    exact hu (hx2 ▸ hx)

theorem reactOn_readBy (m m1 : Message) (username reaction : String)
    (h : reactOn m username reaction = .ok m1) : m1.readBy = m.readBy := by
  unfold reactOn at h
  simp only [] at h
  split at h
  · split at h
    · cases h; split <;> rfl
    · cases h; split <;> rfl
  · cases h

theorem ReadByOk.saveMessage {store : MessageStore} (h : ReadByOk store) (room : String)
    (msg : Message) (hmsg : msg.readBy = []) : ReadByOk (saveMessage store room msg) := by
  intro r m hm
  by_cases hr : room = r
  · subst hr
    rw [saveMessage_get?_self, Option.getD_some] at hm
    have hm2 := List.mem_of_mem_drop hm
    rw [List.mem_append, List.mem_singleton] at hm2
    rcases hm2 with h1 | h1
    · exact h room m h1
    · rw [h1, hmsg]
      exact List.nodup_nil
  · rw [saveMessage_get?_other _ _ _ _ hr] at hm
    exact h r m hm

theorem ReadByOk.markMessageRead {store : MessageStore} (h : ReadByOk store) (room : String)
    (messageId : Nat) (username : String) :
    ReadByOk (markMessageRead store room messageId username) := by
  intro r m hm
  rw [markMessageRead_eq] at hm
  cases hg : JsMap.get? store room with
  | none =>
    rw [hg] at hm
    exact h r m hm
  | some arr =>
    rw [hg] at hm
    simp only [] at hm
    by_cases hr : room = r
    · subst hr
      rw [JsMap.get?_set_self, Option.getD_some] at hm
      have harr : ∀ x ∈ arr, x.readBy.Nodup := by
        intro x hx
        apply h room x
        rw [hg]
        exact hx
      rcases mem_updateFirst _ _ _ _ hm with h1 | ⟨x, hx, _, _, hy⟩
      · exact harr m h1
      · rw [hy]
        exact addReader_nodup _ _ (harr x hx)
    · rw [JsMap.get?_set_other _ _ _ _ hr] at hm
      exact h r m hm

theorem ReadByOk.addReaction {store store1 : MessageStore} (h : ReadByOk store) (room : String)
    (messageId : Nat) (username reaction : String)
    (hadd : addReaction store room messageId username reaction = .ok store1) :
    ReadByOk store1 := by
  unfold ChatServer.addReaction at hadd
  simp only [] at hadd
  split at hadd
  · cases hadd
    exact h
  · rename_i m0 hfind
    split at hadd
    · cases hadd
    · rename_i m1 hreact
      cases hadd
      intro r m hm
      by_cases hr : room = r
      · subst hr
        rw [JsMap.get?_set_self, Option.getD_some] at hm
        rcases mem_updateFirst _ _ _ _ hm with h1 | ⟨x, _, _, _, hy⟩
        · exact h room m h1
        · rw [hy, reactOn_readBy _ _ _ _ hreact]
          exact h room m0 (List.mem_of_find?_eq_some hfind)
      · rw [JsMap.get?_set_other _ _ _ _ hr] at hm
        exact h r m hm

theorem step_readByOk (s s1 : ServerState) (c : String) (e : Event) (out : List Effect)
    (h : ReadByOk s.messageStore) (hstep : step s c e = .ok (s1, out)) :
    ReadByOk s1.messageStore := by
  cases e with
  | login username =>
    simp only [step, Except.ok.injEq] at hstep
    have hs1 : s1 = (login s c username).1 := by rw [hstep]
    rw [hs1]
    unfold login
    split
    · exact h
    · split <;> exact h
  | joinRoom room =>
    simp only [step, Except.ok.injEq] at hstep
    have hs1 : s1 = (joinRoom s c room).1 := by rw [hstep]
    rw [hs1]
    unfold joinRoom
    split <;> exact h
  | leaveRoom room =>
    simp only [step, Except.ok.injEq] at hstep
    have hs1 : s1 = (leaveRoom s c room).1 := by rw [hstep]
    rw [hs1]
    unfold leaveRoom
    split <;> exact h
  | sendMessage room text toUserId isPrivate file now =>
    simp only [step, Except.ok.injEq] at hstep
    have hs1 : s1 = (sendMessage s c room text toUserId isPrivate file now).1 := by rw [hstep]
    rw [hs1]
    unfold sendMessage
    split
    · exact h
    · simp only []
      split
      · exact h.saveMessage _ _ rfl
      · exact h.saveMessage _ _ rfl
  | typing room isTyping toUserId isPrivate =>
    simp only [step, Except.ok.injEq] at hstep
    have hs1 : s1 = (typing s c room isTyping toUserId isPrivate).1 := by rw [hstep]
    rw [hs1]
    unfold typing
    split
    · exact h
    · split
      · split
        · split <;> exact h
        · exact h
      · exact h
  | messageRead room messageId =>
    simp only [step, Except.ok.injEq] at hstep
    have hs1 : s1 = (messageRead s c room messageId).1 := by rw [hstep]
    rw [hs1]
    unfold messageRead
    split
    · exact h
    · exact h.markMessageRead _ _ _
  | react room messageId reaction =>
    simp only [step] at hstep
    unfold react at hstep
    split at hstep
    · cases hstep
      exact h
    · simp only [] at hstep
      split at hstep
      · cases hstep
      · rename_i store hadd
        cases hstep
        exact h.addReaction _ _ _ _ hadd
  | loadMore room offset limit =>
    simp only [step, loadMore, Except.ok.injEq, Prod.mk.injEq] at hstep
    rw [← hstep.1]
    exact h
  | disconnect =>
    simp only [step, Except.ok.injEq] at hstep
    have hs1 : s1 = (disconnect s c).1 := by rw [hstep]
    rw [hs1]
    unfold disconnect
    split <;> exact h
  | noPayload name => simp [step] at hstep

theorem run_readByOk : ∀ (evs : List (String × Event)) (s : ServerState),
    ReadByOk s.messageStore → ReadByOk (run s evs).1.messageStore
  | [], _, h => h
  | (c, e) :: rest, s, h => by
    cases hstep : step s c e with
    | error err =>
      simp only [run, hstep]
      exact h
    | ok r =>
      obtain ⟨s1, out⟩ := r
      simp only [run, hstep]
      exact run_readByOk rest s1 (step_readByOk s s1 c e out h hstep)

/-! ## Read receipts: the claim -/

/-- C8: `markMessageRead` is idempotent; when the room's log holds a message
with the given id, the username is in that message's `readBy` afterwards, a
duplicate-free `readBy` stays duplicate-free so the username occurs exactly
once, and an empty `readBy` marked twice by `"alice"` becomes `["alice"]`; when
no message of the log has that id the store is unchanged; and in every state
reached from the initial state every stored `readBy` is duplicate-free, so
there the username occurs exactly once after the call. -/
theorem markMessageRead_idempotent (store : MessageStore) (room : String) (messageId : Nat)
    (username : String) :
    markMessageRead (markMessageRead store room messageId username) room messageId username =
      markMessageRead store room messageId username ∧
    (∀ (log : List Message) (m : Message), JsMap.get? store room = some log →
      log.find? (fun x => x.id == messageId) = some m →
      ∃ m1 : Message,
        ((JsMap.get? (markMessageRead store room messageId username) room).getD []).find?
          (fun x => x.id == messageId) = some m1 ∧
        m1.id = m.id ∧ username ∈ m1.readBy ∧
        (m.readBy.Nodup → m1.readBy.Nodup ∧ m1.readBy.count username = 1) ∧
        (m.readBy = [] → m1.readBy = [username])) ∧
    (∀ (log : List Message) (m : Message), JsMap.get? store room = some log →
      log.find? (fun x => x.id == messageId) = some m → m.readBy = [] →
      (((JsMap.get? (markMessageRead (markMessageRead store room messageId "alice") room
          messageId "alice") room).getD []).find? (fun x => x.id == messageId)).map
        Message.readBy = some ["alice"]) ∧
    (((JsMap.get? store room).getD []).find? (fun x => x.id == messageId) = none →
      markMessageRead store room messageId username = store) ∧
    (∀ (evs : List (String × Event)) (r : String) (m : Message),
      m ∈ (JsMap.get? (run ServerState.init evs).1.messageStore r).getD [] →
      m.readBy.Nodup) ∧
    (∀ (evs : List (String × Event)) (m : Message),
      ((JsMap.get? (run ServerState.init evs).1.messageStore room).getD []).find?
        (fun x => x.id == messageId) = some m →
      ∃ m1 : Message,
        ((JsMap.get? (markMessageRead (run ServerState.init evs).1.messageStore room messageId
          username) room).getD []).find? (fun x => x.id == messageId) = some m1 ∧
        m1.readBy.count username = 1) := by
  have hp : ∀ (u : String) (x : Message), (x.id == messageId) = true →
      ((addReader u x).id == messageId) = true := by
    intro u x hx
    rw [addReader_id]
    exact hx
  have idem : ∀ u : String,
      markMessageRead (markMessageRead store room messageId u) room messageId u =
        markMessageRead store room messageId u := by
    intro u
    rw [markMessageRead_eq store]
    cases hg : JsMap.get? store room with
    | none => simp only [markMessageRead_eq, hg]
    | some arr =>
      simp only []
      rw [markMessageRead_eq, JsMap.get?_set_self]
      simp only []
      rw [JsMap.set_set, updateFirst_idem _ _ _ (hp u) (addReader_idem u)]
  have found : ∀ (u : String) (log : List Message) (m : Message),
      JsMap.get? store room = some log →
      log.find? (fun x => x.id == messageId) = some m →
      ((JsMap.get? (markMessageRead store room messageId u) room).getD []).find?
          (fun x => x.id == messageId) = some (addReader u m) := by
    intro u log m hlog hfind
    rw [markMessageRead_eq, hlog]
    simp only []
    rw [JsMap.get?_set_self, Option.getD_some, find?_updateFirst _ _ _ (hp u), hfind]
    rfl
  have hreach : ∀ (evs : List (String × Event)) (r : String) (m : Message),
      m ∈ (JsMap.get? (run ServerState.init evs).1.messageStore r).getD [] →
      m.readBy.Nodup := by
    intro evs r m hm
    have hinit : ReadByOk ServerState.init.messageStore := by
      intro r0 m0 hm0
      simp [ServerState.init, JsMap.get?] at hm0
    exact run_readByOk evs ServerState.init hinit r m hm
  have hp2 : ∀ (st : MessageStore) (x : Message), (x.id == messageId) = true →
      ((addReader username x).id == messageId) = true := by
    intro st x hx
    rw [addReader_id]
    exact hx
  refine ⟨idem username, ?_, ?_, ?_, hreach, ?_⟩
  rotate_right
  · intro evs m hfind
    have hnd : m.readBy.Nodup := hreach evs room m (List.mem_of_find?_eq_some hfind)
    refine ⟨addReader username m, ?_, ?_⟩
    · rw [markMessageRead_eq]
      cases hg : JsMap.get? (run ServerState.init evs).1.messageStore room with
      | none =>
        rw [hg] at hfind
        simp at hfind
      | some arr =>
        rw [hg, Option.getD_some] at hfind
        simp only []
        rw [JsMap.get?_set_self, Option.getD_some,
          find?_updateFirst _ _ _ (hp2 (run ServerState.init evs).1.messageStore), hfind]
        rfl
    · by_cases h : username ∈ m.readBy
      · simp only [addReader, h, if_true]
        exact List.count_eq_one_of_mem hnd h
      · simp only [addReader, h, if_false]
        rw [List.count_append, List.count_eq_zero_of_not_mem h]
        simp
  · intro log m hlog hfind
    refine ⟨addReader username m, found username log m hlog hfind, addReader_id _ _, ?_, ?_, ?_⟩
    · by_cases h : username ∈ m.readBy
      · simp [addReader, h]
      · simp [addReader, h]
    · intro hnd
      by_cases h : username ∈ m.readBy
      · simp only [addReader, h, if_true]
        exact ⟨hnd, List.count_eq_one_of_mem hnd h⟩
      · simp only [addReader, h, if_false]
        refine ⟨?_, ?_⟩
        · rw [List.nodup_append]
          refine ⟨hnd, List.nodup_singleton _, ?_⟩
          intro x hx hx2
          rw [List.mem_singleton] at hx2
          exact h (hx2 ▸ hx)
        · rw [List.count_append, List.count_eq_zero_of_not_mem h]
          simp
    · intro hempty
      simp [addReader, hempty]
  · intro log m hlog hfind hempty
    rw [idem "alice", found "alice" log m hlog hfind]
    simp [addReader, hempty]
  · intro hnone
    rw [markMessageRead_eq]
    cases hg : JsMap.get? store room with
    | none => rfl
    | some arr =>
      simp only []
      rw [hg, Option.getD_some] at hnone
      rw [updateFirst_of_find?_none _ _ _ hnone]
      exact JsMap.set_same _ _ _ hg

/-- Instance of C8: a message with empty `readBy` marked read twice by `"alice"`. -/
theorem markMessageRead_idempotent_witness :
    JsMap.get? ([("global", [Message.mk 1 "bob" (some "hi") 0 none [] []])] : MessageStore)
      "global" = some [Message.mk 1 "bob" (some "hi") 0 none [] []] ∧
    (((JsMap.get? (markMessageRead (markMessageRead
        [("global", [Message.mk 1 "bob" (some "hi") 0 none [] []])] "global" 1 "alice")
        "global" 1 "alice") "global").getD []).find? (fun x => x.id == 1)).map
      Message.readBy = some ["alice"] :=
  ⟨rfl, (markMessageRead_idempotent
    [("global", [Message.mk 1 "bob" (some "hi") 0 none [] []])] "global" 1 "alice").2.2.1
    [Message.mk 1 "bob" (some "hi") 0 none [] []] (Message.mk 1 "bob" (some "hi") 0 none [] [])
    rfl rfl rfl⟩

end ChatServer
